import Mathlib

/-!
# Pipelined CPU simulator: a shallow embedding of `pipeline.cpp`

The definitions follow `src/src/pipeline.h` and `src/src/pipeline.cpp`.

Modelling conventions.
* `int` data values are `Int`; the ALU results (`A + B`, `A - B`, `A + imm`) are
  reduced to the signed 32-bit range by `wrap32`.  Instruction indices (`PC`,
  `Instr.pc`, the branch target) are kept as unbounded `Int`: they stay far
  below `2^31` for every program that fits in memory.
* `std::array<int,32> R` is a total map `Int → Int`; `std::unordered_map<int,int>`
  is a map `Int → Option Int` (`none` = key absent).
* `Instr::raw` and the trace printing only feed the textual output and are left
  out; the per-cycle flags the trace prints (`stall`, `branch_taken`) are kept
  as a list of rows.  `SimResult::cpi` is a `double` and is left out.
* `prog[PC]` with a negative `PC` is an out-of-bounds read in the source.  The
  total function `cycle` yields the default instruction there, and `runLoop`
  reports `Outcome.fault` instead of executing such a cycle.
-/

namespace PipelineSim

/-- The operation kinds, `enum class Op`. -/
inductive Op where
  | NOP | ADD | SUB | LW | SW | BEQ
  deriving DecidableEq, Repr

/-- The instruction record `struct Instr` (without the display string `raw`). -/
structure Instr where
  op : Op := Op.NOP
  rd : Int := 0
  rs : Int := 0
  rt : Int := 0
  imm : Int := 0
  pc : Int := 0
  deriving DecidableEq, Repr

/-- `Instr::writesReg`. -/
def Instr.writesReg (i : Instr) : Bool :=
  i.op == Op.ADD || i.op == Op.SUB || i.op == Op.LW

/-- `Instr::destReg`. -/
def Instr.destReg (i : Instr) : Int :=
  if i.op == Op.ADD || i.op == Op.SUB then i.rd
  else if i.op == Op.LW then i.rt
  else 0

/-- `Instr::usesRS`. -/
def Instr.usesRS (i : Instr) : Bool :=
  i.op == Op.ADD || i.op == Op.SUB || i.op == Op.LW || i.op == Op.SW || i.op == Op.BEQ

/-- `Instr::usesRT`. -/
def Instr.usesRT (i : Instr) : Bool :=
  i.op == Op.ADD || i.op == Op.SUB || i.op == Op.SW || i.op == Op.BEQ

/-- `PipelineSim::sign_extend16`: `(int16_t)(x & 0xFFFF)`. -/
def sign_extend16 (x : Int) : Int :=
  let m := x % 65536
  if m < 32768 then m else m - 65536

/-- Reduction of an integer to the signed 32-bit range of `int`. -/
def wrap32 (x : Int) : Int :=
  let m := x % 4294967296
  if m < 2147483648 then m else m - 4294967296

/-- Latch `IFID`. -/
structure IFID where
  valid : Bool := false
  instr : Instr := {}
  deriving DecidableEq, Repr

/-- Latch `IDEX`. -/
structure IDEX where
  valid : Bool := false
  instr : Instr := {}
  rsVal : Int := 0
  rtVal : Int := 0
  deriving DecidableEq, Repr

/-- Latch `EXMEM`. -/
structure EXMEM where
  valid : Bool := false
  instr : Instr := {}
  aluOut : Int := 0
  rtValFwd : Int := 0
  zero : Bool := false
  branchTarget : Int := 0
  deriving DecidableEq, Repr

/-- Latch `MEMWB`. -/
structure MEMWB where
  valid : Bool := false
  instr : Instr := {}
  memData : Int := 0
  aluOut : Int := 0
  deriving DecidableEq, Repr

/-- `SimConfig` (only the field that influences the machine state). -/
structure SimConfig where
  init_demo_memory : Bool := true

/-- `SimResult` (without the floating-point `cpi`). -/
structure SimResult where
  cycles : Nat := 0
  retired : Nat := 0
  deriving DecidableEq, Repr

/-- The mutable members of `class PipelineSim`. -/
structure State where
  memory : Int → Option Int
  R : Int → Int
  PC : Int
  ifid : IFID
  idex : IDEX
  exmem : EXMEM
  memwb : MEMWB

/-- Assignment `R[i] = v`. -/
def setReg (R : Int → Int) (i v : Int) : Int → Int :=
  fun r => if r = i then v else R r

/-- Assignment `memory[a] = v`. -/
def setMem (m : Int → Option Int) (a v : Int) : Int → Option Int :=
  fun x => if x = a then some v else m x

/-- Read `memory.count(a) ? memory[a] : 0`. -/
def readMem (m : Int → Option Int) (a : Int) : Int :=
  match m a with
  | some v => v
  | none => 0

/-- The memory the constructor builds when `init_demo_memory` is set. -/
def demoMemory : Int → Option Int :=
  setMem (setMem (setMem (setMem (fun _ => none) 0 7) 4 0) 8 0) 12 0

/-- The state right after the constructor `PipelineSim::PipelineSim`. -/
def initState (cfg : SimConfig) : State :=
  { memory := if cfg.init_demo_memory then demoMemory else fun _ => none
    R := fun _ => 0
    PC := 0
    ifid := {}
    idex := {}
    exmem := {}
    memwb := {} }

/-- `PipelineSim::pipeline_empty`. -/
def pipeline_empty (prog : List Instr) (s : State) : Bool :=
  decide (s.PC ≥ (prog.length : Int)) && !s.ifid.valid && !s.idex.valid
    && !s.exmem.valid && !s.memwb.valid

/-- The lambda `get_wb_value` of `run`. -/
def get_wb_value (wb : MEMWB) : Int :=
  if !wb.valid then 0
  else if wb.instr.op == Op.LW then wb.memData
  else wb.aluOut

/-- WB step, register part (lines 68-78): the register file after Writeback. -/
def wbRegs (s : State) : Int → Int :=
  let R1 :=
    if s.memwb.valid && s.memwb.instr.writesReg then
      let dst := s.memwb.instr.destReg
      if dst ≠ 0 then
        setReg s.R dst (if s.memwb.instr.op == Op.LW then s.memwb.memData else s.memwb.aluOut)
      else s.R
    else s.R
  setReg R1 0 0

/-- WB step, accounting part: the amount added to `res.retired` in this cycle. -/
def wbRetired (s : State) : Nat :=
  if s.memwb.valid && s.memwb.instr.writesReg then 1
  else if s.memwb.valid && s.memwb.instr.op != Op.NOP then 1
  else 0

/-- MEM step (lines 81-94): the next `MEMWB` latch. -/
def memLatch (s : State) : MEMWB :=
  if s.exmem.valid then
    { valid := true
      instr := s.exmem.instr
      aluOut := s.exmem.aluOut
      memData := if s.exmem.instr.op == Op.LW then readMem s.memory s.exmem.aluOut else 0 }
  else {}

/-- MEM step (lines 81-94): the memory after the step. -/
def memMemory (s : State) : Int → Option Int :=
  if s.exmem.valid && s.exmem.instr.op == Op.SW then
    setMem s.memory s.exmem.aluOut s.exmem.rtValFwd
  else s.memory

/-- EX step, forwarding (lines 105-124): the resolved operand `A`. -/
def operandA (s : State) : Int :=
  let A0 := s.idex.rsVal
  let A1 :=
    if s.exmem.valid && s.exmem.instr.writesReg && s.exmem.instr.op != Op.LW then
      let d := s.exmem.instr.destReg
      if d ≠ 0 then
        if s.idex.instr.usesRS && decide (d = s.idex.instr.rs) then s.exmem.aluOut else A0
      else A0
    else A0
  if s.memwb.valid && s.memwb.instr.writesReg then
    let d := s.memwb.instr.destReg
    if d ≠ 0 then
      if s.idex.instr.usesRS && decide (d = s.idex.instr.rs) then get_wb_value s.memwb else A1
    else A1
  else A1

/-- EX step, forwarding (lines 105-124): the resolved operand `B`. -/
def operandB (s : State) : Int :=
  let B0 := s.idex.rtVal
  let B1 :=
    if s.exmem.valid && s.exmem.instr.writesReg && s.exmem.instr.op != Op.LW then
      let d := s.exmem.instr.destReg
      if d ≠ 0 then
        if s.idex.instr.usesRT && decide (d = s.idex.instr.rt) then s.exmem.aluOut else B0
      else B0
    else B0
  if s.memwb.valid && s.memwb.instr.writesReg then
    let d := s.memwb.instr.destReg
    if d ≠ 0 then
      if s.idex.instr.usesRT && decide (d = s.idex.instr.rt) then get_wb_value s.memwb else B1
    else B1
  else B1

/-- EX step, computation (lines 97-147): the next `EXMEM` latch. -/
def exLatch (s : State) : EXMEM :=
  if s.idex.valid then
    let A := operandA s
    let B := operandB s
    let imm := sign_extend16 s.idex.instr.imm
    match s.idex.instr.op with
    | Op.ADD => { valid := true, instr := s.idex.instr, aluOut := wrap32 (A + B) }
    | Op.SUB => { valid := true, instr := s.idex.instr, aluOut := wrap32 (A - B) }
    | Op.LW => { valid := true, instr := s.idex.instr, aluOut := wrap32 (A + imm), rtValFwd := B }
    | Op.SW => { valid := true, instr := s.idex.instr, aluOut := wrap32 (A + imm), rtValFwd := B }
    | Op.BEQ =>
        { valid := true, instr := s.idex.instr, zero := decide (A = B),
          branchTarget := s.idex.instr.pc + 1 + imm }
    | Op.NOP => { valid := true, instr := s.idex.instr }
  else {}

/-- EX step: the local `branch_taken`. -/
def branch_taken (s : State) : Bool :=
  s.idex.valid && s.idex.instr.op == Op.BEQ && (exLatch s).zero

/-- EX step: the local `branch_target` (initialised to `PC`). -/
def branch_target (s : State) : Int :=
  if branch_taken s then (exLatch s).branchTarget else s.PC

/-- ID step, load-use check (lines 151-164): the local `stall`. -/
def stall (s : State) : Bool :=
  if s.ifid.valid then
    if s.idex.valid && s.idex.instr.op == Op.LW then
      let loadDst := s.idex.instr.destReg
      if loadDst ≠ 0 then
        (s.ifid.instr.usesRS && decide (s.ifid.instr.rs = loadDst)) ||
          (s.ifid.instr.usesRT && decide (s.ifid.instr.rt = loadDst))
      else false
    else false
  else false

/-- The bubble instruction built at lines 174-176: `Instr{}` with `pc = -1`. -/
def bubble : Instr := { pc := -1 }

/-- ID step (lines 150-180): the next `IDEX` latch.  The register file it reads is
the one the WB step of the same cycle has already updated. -/
def idLatch (s : State) : IDEX :=
  if s.ifid.valid then
    if !stall s then
      { valid := true, instr := s.ifid.instr,
        rsVal := wbRegs s s.ifid.instr.rs, rtVal := wbRegs s s.ifid.instr.rt }
    else
      { valid := true, instr := bubble, rsVal := 0, rtVal := 0 }
  else {}

/-- The element `prog[i]`; the default instruction where the source reads out of bounds. -/
def progAt (prog : List Instr) (i : Int) : Instr :=
  if 0 ≤ i then prog.getD i.toNat {} else {}

/-- IF step (lines 183-197): the next `IFID` latch. -/
def ifLatch (prog : List Instr) (s : State) : IFID :=
  if branch_taken s then { s.ifid with valid := false }
  else if stall s then s.ifid
  else if s.PC < (prog.length : Int) then { valid := true, instr := progAt prog s.PC }
  else { s.ifid with valid := false }

/-- IF step (lines 183-197): the next value of `PC`. -/
def nextPC (s : State) : Int :=
  if branch_taken s then branch_target s
  else if stall s then s.PC
  else s.PC + 1

/-- The IF step of this cycle evaluates `prog[PC]` with a negative `PC`. -/
def fetchFault (prog : List Instr) (s : State) : Bool :=
  !branch_taken s && !stall s && decide (s.PC < (prog.length : Int)) && decide (s.PC < 0)

/-- One iteration of the `while` loop of `run` (lines 65-217). -/
def cycle (prog : List Instr) (s : State) : State :=
  { memory := memMemory s
    R := setReg (wbRegs s) 0 0
    PC := nextPC s
    ifid := ifLatch prog s
    idex := idLatch s
    exmem := exLatch s
    memwb := memLatch s }

/-- The flags one trace block reports for a cycle. -/
structure TraceRow where
  stall : Bool
  branch_taken : Bool
  branch_target : Int
  deriving DecidableEq, Repr

/-- The trace row of the cycle executed from state `s`. -/
def traceRow (s : State) : TraceRow :=
  { stall := stall s, branch_taken := branch_taken s, branch_target := branch_target s }

/-- How a bounded execution of `run` ends. -/
inductive Outcome where
  | finished (res : SimResult) (final : State) (trace : List TraceRow)
  | fault
  | outOfFuel

/-- The `while (!pipeline_empty())` loop of `run`, with at most `fuel` iterations. -/
def runLoop (prog : List Instr) : Nat → State → SimResult → List TraceRow → Outcome
  | 0, s, res, tr =>
      if pipeline_empty prog s then Outcome.finished res s tr else Outcome.outOfFuel
  | fuel + 1, s, res, tr =>
      if pipeline_empty prog s then Outcome.finished res s tr
      else if fetchFault prog s then Outcome.fault
      else
        runLoop prog fuel (cycle prog s)
          { cycles := res.cycles + 1, retired := res.retired + wbRetired s }
          (tr ++ [traceRow s])

/-- `PipelineSim::run` on a freshly constructed simulator, with at most `fuel` cycles. -/
def run (prog : List Instr) (cfg : SimConfig) (fuel : Nat) : Outcome :=
  runLoop prog fuel (initState cfg) {} []

/-- The state after `k` iterations of the loop body. -/
def cyclesN (prog : List Instr) : Nat → State → State
  | 0, s => s
  | k + 1, s => cyclesN prog k (cycle prog s)

/-- The result record of a finished run. -/
def Outcome.result : Outcome → Option SimResult
  | Outcome.finished res _ _ => some res
  | _ => none

/-- The final machine state of a finished run. -/
def Outcome.final : Outcome → Option State
  | Outcome.finished _ s _ => some s
  | _ => none

/-- The number of cycles of a finished run in which the stall flag was raised. -/
def Outcome.stalls : Outcome → Option Nat
  | Outcome.finished _ _ tr => some (tr.filter (fun r => r.stall)).length
  | _ => none

/-- The program is well formed: register numbers in `[0,31]` (guaranteed by `parse_reg`). -/
def regsInRange (prog : List Instr) : Prop :=
  ∀ i ∈ prog, 0 ≤ i.rd ∧ i.rd ≤ 31 ∧ 0 ≤ i.rs ∧ i.rs ≤ 31 ∧ 0 ≤ i.rt ∧ i.rt ≤ 31

/-- The `pc` field of every instruction is its position in the program (as `main` sets it). -/
def pcIsIndex (prog : List Instr) : Prop :=
  prog.map Instr.pc = (List.range prog.length).map (fun k => (k : Int))

instance (prog : List Instr) : Decidable (regsInRange prog) := by
  unfold regsInRange; infer_instance

instance (prog : List Instr) : Decidable (pcIsIndex prog) := by
  unfold pcIsIndex; infer_instance

/-! ### Instruction records as `parse_line` builds them -/

/-- The record of `lw rt, imm(rs)` at index `pc`. -/
def iLW (rt imm rs pc : Int) : Instr := { op := Op.LW, rt := rt, imm := imm, rs := rs, pc := pc }

/-- The record of `sw rt, imm(rs)` at index `pc`. -/
def iSW (rt imm rs pc : Int) : Instr := { op := Op.SW, rt := rt, imm := imm, rs := rs, pc := pc }

/-- The record of `add rd, rs, rt` at index `pc`. -/
def iADD (rd rs rt pc : Int) : Instr := { op := Op.ADD, rd := rd, rs := rs, rt := rt, pc := pc }

/-- The record of `sub rd, rs, rt` at index `pc`. -/
def iSUB (rd rs rt pc : Int) : Instr := { op := Op.SUB, rd := rd, rs := rs, rt := rt, pc := pc }

/-- The record of `beq rs, rt, imm` at index `pc`. -/
def iBEQ (rs rt imm pc : Int) : Instr := { op := Op.BEQ, rs := rs, rt := rt, imm := imm, pc := pc }

/-- The record of `nop` at index `pc`. -/
def iNOP (pc : Int) : Instr := { pc := pc }

/-- The end-to-end example `lw r2, 0(r0); add r3, r2, r2; sw r3, 4(r0)`. -/
def progLoadUse : List Instr := [iLW 2 0 0 0, iADD 3 2 2 1, iSW 3 4 0 2]

/-- Three consecutive writes of `7`, `14`, `-7` to `r2`, read by the last instruction:
`lw r1,0(r0); add r4,r1,r1; add r2,r1,r0; add r2,r4,r0; sub r2,r0,r1; add r3,r2,r0`. -/
def progChain : List Instr :=
  [iLW 1 0 0 0, iADD 4 1 1 1, iADD 2 1 0 2, iADD 2 4 0 3, iSUB 2 0 1 4, iADD 3 2 0 5]

/-- Two back-to-back writes to `r2` and a reader:
`lw r1,0(r0); add r2,r1,r1; add r2,r2,r1; add r3,r2,r0`. -/
def progTwoWrites : List Instr := [iLW 1 0 0 0, iADD 2 1 1 1, iADD 2 2 1 2, iADD 3 2 0 3]

/-- A taken branch over one instruction: `beq r0,r0,1; lw r1,0(r0); add r3,r0,r0`. -/
def progSkipOne : List Instr := [iBEQ 0 0 1 0, iLW 1 0 0 1, iADD 3 0 0 2]

/-- The branch example: `beq r0,r0,2; lw r1,0(r0); lw r2,0(r0); add r3,r0,r0`. -/
def progSkipTwo : List Instr := [iBEQ 0 0 2 0, iLW 1 0 0 1, iLW 2 0 0 2, iADD 3 0 0 3]

/-- A hazard-free straight-line program: `lw r2,0(r0); nop; add r3,r2,r2`. -/
def progStraight : List Instr := [iLW 2 0 0 0, iNOP 1, iADD 3 2 2 2]

/-- The one-instruction loop `beq r0,r0,-1`. -/
def progLoop : List Instr := [iBEQ 0 0 (-1) 0]

/-! ### One-at-a-time reference semantics (as the specification words it) -/

/-- Architectural state: register file and memory. -/
structure ArchState where
  R : Int → Int
  memory : Int → Option Int

/-- Reference register write: register 0 stays 0. -/
def specWrite (R : Int → Int) (d v : Int) : Int → Int :=
  if d = 0 then R else setReg R d v

/-- Reference execution of the instruction `ins` found at index `idx`: the index of the
next instruction and the new architectural state.  `add`/`sub` write `rd`, `lw` writes `rt`
from `memory[R[rs] + sext16(imm)]`, `sw` stores `R[rt]` there, and a `beq` with equal
operands continues at `idx + 1 + sext16(imm)`. -/
def specStep (ins : Instr) (idx : Int) (a : ArchState) : Int × ArchState :=
  match ins.op with
  | Op.ADD => (idx + 1, { a with R := specWrite a.R ins.rd (wrap32 (a.R ins.rs + a.R ins.rt)) })
  | Op.SUB => (idx + 1, { a with R := specWrite a.R ins.rd (wrap32 (a.R ins.rs - a.R ins.rt)) })
  | Op.LW =>
      (idx + 1,
        { a with R := specWrite a.R ins.rt
                    (readMem a.memory (wrap32 (a.R ins.rs + sign_extend16 ins.imm))) })
  | Op.SW =>
      (idx + 1,
        { a with memory := setMem a.memory (wrap32 (a.R ins.rs + sign_extend16 ins.imm))
                    (a.R ins.rt) })
  | Op.BEQ =>
      (if a.R ins.rs = a.R ins.rt then idx + 1 + sign_extend16 ins.imm else idx + 1, a)
  | Op.NOP => (idx + 1, a)

/-- Reference run: execute one instruction at a time from index `idx` until the index leaves
the program, with at most `fuel` instructions. -/
def specRun (prog : List Instr) : Nat → Int → ArchState → Option ArchState
  | 0, idx, a => if 0 ≤ idx ∧ idx < (prog.length : Int) then none else some a
  | fuel + 1, idx, a =>
      if 0 ≤ idx ∧ idx < (prog.length : Int) then
        specRun prog fuel (specStep (progAt prog idx) idx a).1 (specStep (progAt prog idx) idx a).2
      else some a

/-- The architectural part of the constructor state. -/
def initArch (cfg : SimConfig) : ArchState :=
  { R := (initState cfg).R, memory := (initState cfg).memory }

/-! ### Quantities of branch-free programs -/

/-- The load-use relation between an instruction `a` and its successor `b`: `a` is a
load-word with destination `d ≠ 0` and `b` reads `d` under its operand usage. -/
def hazard (a b : Instr) : Bool :=
  a.op == Op.LW && decide (a.destReg ≠ 0) &&
    ((b.usesRS && decide (b.rs = a.destReg)) || (b.usesRT && decide (b.rt = a.destReg)))

/-- The number of indices `i` with `hazard prog[i] prog[i+1]`. -/
def hazardCount : List Instr → Nat
  | [] => 0
  | [_] => 0
  | a :: b :: rest => (if hazard a b then 1 else 0) + hazardCount (b :: rest)

/-- The program contains no branch-if-equal. -/
def noBranch (prog : List Instr) : Prop := ∀ i ∈ prog, i.op ≠ Op.BEQ

/-- The program contains no load-use hazard: no instruction at an index `k` is in the
load-use relation with the instruction at index `k + 1`. -/
def noLoadUse (prog : List Instr) : Prop :=
  ∀ k < prog.length - 1, hazard (prog.getD k {}) (prog.getD (k + 1) {}) = false

instance (prog : List Instr) : Decidable (noBranch prog) := by
  unfold noBranch; infer_instance

instance (prog : List Instr) : Decidable (noLoadUse prog) := by
  unfold noLoadUse; infer_instance

/-- The number of program instructions whose operation is not no-op. -/
def nonNops (prog : List Instr) : Nat := (prog.filter (fun i => i.op != Op.NOP)).length

/-- Whether a latch content is counted in `res.retired` when it reaches Writeback. -/
def countsRetired (valid : Bool) (i : Instr) : Nat :=
  if valid && i.op != Op.NOP then 1 else 0

/-- The number of cycles a branch-free run still executes from state `s`. -/
def remaining (prog : List Instr) (s : State) : Nat :=
  if s.PC < (prog.length : Int) then
    (prog.length - s.PC.toNat) + 4 + (if stall s then 1 else 0)
      + (if s.ifid.valid && hazard s.ifid.instr (progAt prog s.PC) then 1 else 0)
      + hazardCount (prog.drop s.PC.toNat)
  else if s.ifid.valid then 4 + (if stall s then 1 else 0)
  else if s.idex.valid then 3
  else if s.exmem.valid then 2
  else if s.memwb.valid then 1
  else 0

/-- The number of instructions a branch-free run still retires from state `s`. -/
def pending (prog : List Instr) (s : State) : Nat :=
  countsRetired s.memwb.valid s.memwb.instr + countsRetired s.exmem.valid s.exmem.instr
    + countsRetired s.idex.valid s.idex.instr + countsRetired s.ifid.valid s.ifid.instr
    + nonNops (prog.drop s.PC.toNat)

/-- No branch is in flight in the front of the pipeline and `PC` is a valid count. -/
def flowInv (s : State) : Prop :=
  0 ≤ s.PC ∧ (s.ifid.valid = true → s.ifid.instr.op ≠ Op.BEQ) ∧
    (s.idex.valid = true → s.idex.instr.op ≠ Op.BEQ)

/-- The three phases the one-instruction loop `progLoop` cycles through. -/
def loopInv (s : State) : Prop :=
  (s.PC = 0 ∧ s.ifid.valid = false ∧ s.idex.valid = false) ∨
  (s.PC = 1 ∧ s.ifid = { valid := true, instr := iBEQ 0 0 (-1) 0 } ∧ s.idex.valid = false) ∨
  (s.PC = 2 ∧ s.ifid.valid = false ∧
    s.idex = { valid := true, instr := iBEQ 0 0 (-1) 0, rsVal := 0, rtVal := 0 })

/-- The state of `progChain` at the start of its ninth cycle. -/
def chainState : State := cyclesN progChain 8 (initState {})

/-- The state of `progSkipOne` at the start of its third cycle. -/
def skipOneState : State := cyclesN progSkipOne 2 (initState {})

/-- The state of `progLoadUse` at the start of its third cycle. -/
def loadUseState : State := cyclesN progLoadUse 2 (initState {})

/-- The index at which the IF step of this cycle reads `prog`, if it reads it. -/
def fetchIndex (prog : List Instr) (s : State) : Option Int :=
  if branch_taken s then none
  else if stall s then none
  else if s.PC < (prog.length : Int) then some s.PC
  else none

/-- The bounded run ended in an out-of-bounds fetch. -/
def Outcome.isFault : Outcome → Bool
  | Outcome.fault => true
  | _ => false

/-- A branch to a negative index: `beq r0,r0,-5`. -/
def progNegBranch : List Instr := [iBEQ 0 0 (-5) 0]

/-- The state of `progNegBranch` at the start of its fourth cycle. -/
def negBranchState : State := cyclesN progNegBranch 3 (initState {})

/-- A load whose reader is three instructions behind: `lw r1,0(r0); nop; nop; add r2,r1,r1`. -/
def progWriteback : List Instr := [iLW 1 0 0 0, iNOP 1, iNOP 2, iADD 2 1 1 3]

/-- The state of `progWriteback` at the start of its fifth cycle. -/
def writebackState : State := cyclesN progWriteback 4 (initState {})

/-- The state of `progLoadUse` at the start of its fourth cycle (right after the stall). -/
def afterStallState : State := cyclesN progLoadUse 3 (initState {})

/-- Every valid latch carries an instruction of the program or, behind IF/ID, the bubble. -/
def latchInv (prog : List Instr) (s : State) : Prop :=
  (s.ifid.valid = true → s.ifid.instr ∈ prog) ∧
  (s.idex.valid = true → s.idex.instr ∈ prog ∨ s.idex.instr = bubble) ∧
  (s.exmem.valid = true → s.exmem.instr ∈ prog ∨ s.exmem.instr = bubble) ∧
  (s.memwb.valid = true → s.memwb.instr ∈ prog ∨ s.memwb.instr = bubble)

/-- The number of indices `i` such that instruction `i` is in the load-use relation with
instruction `i + 1`, counted index by index. -/
def loadUsePairs (prog : List Instr) : Nat :=
  ((List.range (prog.length - 1)).filter
    (fun i => hazard (prog.getD i {}) (prog.getD (i + 1) {}))).length

/-! ### Refinement of the one-at-a-time execution by branch-free runs -/

/-- No two adjacent instructions write the same non-zero destination register. -/
def noAdjacentSameDest (prog : List Instr) : Prop :=
  ∀ k < prog.length - 1,
    ¬ ((prog.getD k {}).writesReg = true ∧ (prog.getD (k + 1) {}).writesReg = true ∧
        (prog.getD k {}).destReg = (prog.getD (k + 1) {}).destReg ∧
        (prog.getD k {}).destReg ≠ 0)

instance (prog : List Instr) : Decidable (noAdjacentSameDest prog) := by
  unfold noAdjacentSameDest; infer_instance

/-- The architectural state after the first `k` instructions of a branch-free program have
been executed one at a time from `a0`. -/
def seqAt (prog : List Instr) (a0 : ArchState) : Nat → ArchState
  | 0 => a0
  | k + 1 => (specStep (prog.getD k {}) k (seqAt prog a0 k)).2

/-- The value a register-writing instruction `i` writes when executed on state `a`. -/
def specValue (i : Instr) (a : ArchState) : Int :=
  match i.op with
  | Op.ADD => wrap32 (a.R i.rs + a.R i.rt)
  | Op.SUB => wrap32 (a.R i.rs - a.R i.rt)
  | Op.LW => readMem a.memory (wrap32 (a.R i.rs + sign_extend16 i.imm))
  | _ => 0

/-- The `aluOut` the EX step computes for instruction `i` on resolved operands `A`, `B`. -/
def aluOf (i : Instr) (A B : Int) : Int :=
  match i.op with
  | Op.ADD => wrap32 (A + B)
  | Op.SUB => wrap32 (A - B)
  | Op.LW => wrap32 (A + sign_extend16 i.imm)
  | Op.SW => wrap32 (A + sign_extend16 i.imm)
  | _ => 0

/-- A latch that holds no program instruction: invalid, or a valid no-op (the bubble). -/
def idle (valid : Bool) (i : Instr) : Prop := valid = true → i.op = Op.NOP

/-- After-memory holds instruction `w` of the program with the value it writes. -/
def memwbOK (prog : List Instr) (a0 : ArchState) (s : State) (w : Nat) : Prop :=
  s.memwb.valid = true ∧ s.memwb.instr = prog.getD w {} ∧
  ((prog.getD w {}).writesReg = true →
    (if (prog.getD w {}).op = Op.LW then s.memwb.memData else s.memwb.aluOut)
      = specValue (prog.getD w {}) (seqAt prog a0 w))

/-- After-execute holds instruction `m` of the program with its ALU result and store data. -/
def exmemOK (prog : List Instr) (a0 : ArchState) (s : State) (m : Nat) : Prop :=
  s.exmem.valid = true ∧ s.exmem.instr = prog.getD m {} ∧
  s.exmem.aluOut = aluOf (prog.getD m {}) ((seqAt prog a0 m).R (prog.getD m {}).rs)
      ((seqAt prog a0 m).R (prog.getD m {}).rt) ∧
  ((prog.getD m {}).op = Op.SW → s.exmem.rtValFwd = (seqAt prog a0 m).R (prog.getD m {}).rt)

/-- After-decode holds instruction `x` of the program and the operands it uses resolve to
the register values of the one-at-a-time execution. -/
def idexOK (prog : List Instr) (a0 : ArchState) (s : State) (x : Nat) : Prop :=
  s.idex.valid = true ∧ s.idex.instr = prog.getD x {} ∧
  ((prog.getD x {}).usesRS = true → operandA s = (seqAt prog a0 x).R (prog.getD x {}).rs) ∧
  ((prog.getD x {}).usesRT = true → operandB s = (seqAt prog a0 x).R (prog.getD x {}).rt)

/-- The refinement invariant of a branch-free run: `w`, `m`, `x`, `d` instructions have
passed Writeback, Memory, Execute and Decode. -/
def refInv (prog : List Instr) (a0 : ArchState) (s : State) : Prop :=
  ∃ w m x d : Nat,
    (m = w ∨ m = w + 1) ∧ (x = m ∨ x = m + 1) ∧ (d = x ∨ d = x + 1) ∧ d ≤ prog.length ∧
    s.R = (seqAt prog a0 w).R ∧ s.memory = (seqAt prog a0 m).memory ∧
    (m = w + 1 → memwbOK prog a0 s w) ∧ (m = w → idle s.memwb.valid s.memwb.instr) ∧
    (x = m + 1 → exmemOK prog a0 s m) ∧ (x = m → idle s.exmem.valid s.exmem.instr) ∧
    (d = x + 1 → idexOK prog a0 s x) ∧ (d = x → idle s.idex.valid s.idex.instr) ∧
    (s.ifid.valid = true →
      s.PC = ((d + 1 : Nat) : Int) ∧ d < prog.length ∧ s.ifid.instr = prog.getD d {}) ∧
    (s.ifid.valid = false →
      s.PC = (d : Int) ∨ (d = prog.length ∧ (prog.length : Int) ≤ s.PC))

/-- The forwarding network of the EX step as one priority chain: the value resolved for a
source register `r` (used by the instruction iff `uses`) whose latched value is `v0`. -/
def forwardOf (s : State) (uses : Bool) (r v0 : Int) : Int :=
  if s.memwb.valid = true ∧ s.memwb.instr.writesReg = true ∧ s.memwb.instr.destReg ≠ 0 ∧
      uses = true ∧ s.memwb.instr.destReg = r then get_wb_value s.memwb
  else if s.exmem.valid = true ∧ s.exmem.instr.writesReg = true ∧ s.exmem.instr.op ≠ Op.LW ∧
      s.exmem.instr.destReg ≠ 0 ∧ uses = true ∧ s.exmem.instr.destReg = r then s.exmem.aluOut
  else v0

/-! ## Concrete runs -/

/-- C5: the program `lw r2, 0(r0); add r3, r2, r2; sw r3, 4(r0)`, started with
`memory[0] = 7` and all registers 0, terminates after 8 cycles with `retired = 3` and final
`memory[4] = 14`, and the stall flag is raised in exactly one cycle of the run. -/
theorem loadUse_example :
    (initState {}).memory 0 = some 7 ∧
    (List.range 32).map (fun r => (initState {}).R r) = List.replicate 32 0 ∧
    (run progLoadUse {} 8).result = some { cycles := 8, retired := 3 } ∧
    (run progLoadUse {} 8).final.map (fun s => s.memory 4) = some (some 14) ∧
    (run progLoadUse {} 8).stalls = some 1 := by
  decide

/-- C2 (the code at the failing input): at the start of cycle 9 of `progChain` the reader
`add r3,r2,r0` is in after-decode, `sub r2,r0,r1` (result `-7`) is in after-execute and
`add r2,r4,r0` (result `14`) is in after-memory; the operand resolved for `r2` is the
after-memory value `14`, not the after-execute result `-7`, and `r3` ends as `14`. -/
theorem chain_forwards_older_value :
    chainState.idex.valid = true ∧ chainState.idex.instr = iADD 3 2 0 5 ∧
    chainState.idex.instr.usesRS = true ∧ chainState.idex.instr.rs = 2 ∧
    chainState.exmem.valid = true ∧ chainState.exmem.instr = iSUB 2 0 1 4 ∧
    chainState.exmem.instr.destReg = 2 ∧ chainState.exmem.aluOut = -7 ∧
    chainState.memwb.valid = true ∧ chainState.memwb.instr = iADD 2 4 0 3 ∧
    chainState.memwb.instr.destReg = 2 ∧ get_wb_value chainState.memwb = 14 ∧
    operandA chainState = 14 ∧ operandA chainState ≠ chainState.exmem.aluOut ∧
    (run progChain {} 11).final.map (fun s => (s.R 2, s.R 3)) = some (-7, 14) := by
  decide

/-- C3 (the code at the failing input): in cycle 3 of `progSkipOne` the branch in
after-decode resolves taken while `lw r1,0(r0)` sits in after-fetch; the load is carried
into the next after-decode latch, then into after-execute and after-memory, it is retired
(three instructions retire) and it writes `7` into `r1`. -/
theorem taken_branch_keeps_fetched_instr :
    skipOneState.idex.instr = iBEQ 0 0 1 0 ∧ branch_taken skipOneState = true ∧
    branch_target skipOneState = 2 ∧
    skipOneState.ifid = { valid := true, instr := iLW 1 0 0 1 } ∧
    (cyclesN progSkipOne 1 skipOneState).idex.valid = true ∧
    (cyclesN progSkipOne 1 skipOneState).idex.instr = iLW 1 0 0 1 ∧
    (cyclesN progSkipOne 2 skipOneState).exmem.valid = true ∧
    (cyclesN progSkipOne 2 skipOneState).exmem.instr = iLW 1 0 0 1 ∧
    (cyclesN progSkipOne 3 skipOneState).memwb.valid = true ∧
    (cyclesN progSkipOne 3 skipOneState).memwb.instr = iLW 1 0 0 1 ∧
    wbRetired (cyclesN progSkipOne 3 skipOneState) = 1 ∧
    (cyclesN progSkipOne 3 skipOneState).R 1 = 0 ∧
    (cyclesN progSkipOne 4 skipOneState).R 1 = 7 ∧
    (run progSkipOne {} 8).result = some { cycles := 8, retired := 3 } ∧
    (run progSkipOne {} 8).final.map (fun s => s.R 1) = some 7 := by
  decide

/-- C6 (the code at the failing input): on `beq r0,r0,2; lw r1,0(r0); lw r2,0(r0);
add r3,r0,r0` the run retires three instructions, not two: the instruction at index 1 is
executed and leaves `7` in `r1`; only the instruction at index 2 is skipped. -/
theorem branch_example_retires_skipped_instr :
    (run progSkipTwo {} 8).result = some { cycles := 8, retired := 3 } ∧
    (run progSkipTwo {} 8).final.map (fun s => (s.R 1, s.R 2, s.R 3)) = some (7, 0, 0) ∧
    (specRun progSkipTwo 2 0 (initArch {})).map (fun a => (a.R 1, a.R 2, a.R 3))
      = some (0, 0, 0) := by
  decide

/-- C1 (the code at the failing input): `progTwoWrites` has registers in range and `pc`
fields equal to the indices, `run` terminates on it, and the final `r3` is `14` while
one-at-a-time execution gives `21`.  Likewise `progSkipOne` ends with `r1 = 7` where
one-at-a-time execution leaves `r1 = 0`. -/
theorem run_differs_from_sequential :
    regsInRange progTwoWrites ∧ pcIsIndex progTwoWrites ∧
    (run progTwoWrites {} 9).result = some { cycles := 9, retired := 4 } ∧
    (run progTwoWrites {} 9).final.map (fun s => s.R 3) = some 14 ∧
    (specRun progTwoWrites 4 0 (initArch {})).map (fun a => a.R 3) = some 21 ∧
    regsInRange progSkipOne ∧ pcIsIndex progSkipOne ∧
    (run progSkipOne {} 8).final.map (fun s => s.R 1) = some 7 ∧
    (specRun progSkipOne 2 0 (initArch {})).map (fun a => a.R 1) = some 0 := by
  decide

/-! ## Register 0 -/

/-- C9: register 0 is 0 after every cycle, from any state (so also when the instruction
in Writeback is an add, sub or load-word with destination 0), and hence in every state
reachable from the constructor state. -/
theorem register_zero_after_every_cycle (prog : List Instr) (cfg : SimConfig) :
    (∀ s : State, (cycle prog s).R 0 = 0) ∧
    (∀ k : Nat, (cyclesN prog k (initState cfg)).R 0 = 0) := by
  have h1 : ∀ s : State, (cycle prog s).R 0 = 0 := by
    intro s
    simp [cycle, setReg]
  have h2 : ∀ (k : Nat) (s : State), s.R 0 = 0 → (cyclesN prog k s).R 0 = 0 := by
    intro k
    induction k with
    | zero => intro s hs; simpa [cyclesN] using hs
    | succ k ih => intro s _; exact ih (cycle prog s) (h1 s)
  exact ⟨h1, fun k => h2 k (initState cfg) (by simp [initState])⟩

/-! ## Load-use stall -/

/-- C4: when after-decode holds a valid load-word with destination `d ≠ 0` and after-fetch
holds a valid instruction reading `d`, the cycle stalls and the following cycle does not;
two cycles later the dependent instruction is in after-decode with the load in after-memory,
and every operand it reads from `d` resolves to the word the load read from memory at its
effective address. -/
theorem loadUse_stall_delivers_loaded_value (prog : List Instr) (s : State)
    (hv : s.idex.valid = true) (hop : s.idex.instr.op = Op.LW)
    (hd : s.idex.instr.destReg ≠ 0) (hf : s.ifid.valid = true)
    (hreads : (s.ifid.instr.usesRS = true ∧ s.ifid.instr.rs = s.idex.instr.destReg) ∨
      (s.ifid.instr.usesRT = true ∧ s.ifid.instr.rt = s.idex.instr.destReg)) :
    pipeline_empty prog s = false ∧ stall s = true ∧
    pipeline_empty prog (cycle prog s) = false ∧ stall (cycle prog s) = false ∧
    pipeline_empty prog (cycle prog (cycle prog s)) = false ∧
    (cycle prog (cycle prog s)).idex.valid = true ∧
    (cycle prog (cycle prog s)).idex.instr = s.ifid.instr ∧
    (cycle prog s).exmem.instr = s.idex.instr ∧
    (cycle prog s).exmem.aluOut = wrap32 (operandA s + sign_extend16 s.idex.instr.imm) ∧
    (cycle prog (cycle prog s)).memwb.instr = s.idex.instr ∧
    (cycle prog (cycle prog s)).memwb.memData =
      readMem (cycle prog s).memory (cycle prog s).exmem.aluOut ∧
    (s.ifid.instr.usesRS = true → s.ifid.instr.rs = s.idex.instr.destReg →
      operandA (cycle prog (cycle prog s)) =
        readMem (cycle prog s).memory (cycle prog s).exmem.aluOut) ∧
    (s.ifid.instr.usesRT = true → s.ifid.instr.rt = s.idex.instr.destReg →
      operandB (cycle prog (cycle prog s)) =
        readMem (cycle prog s).memory (cycle prog s).exmem.aluOut) := by
  have hst : stall s = true := by
    rcases hreads with ⟨h1, h2⟩ | ⟨h1, h2⟩ <;> simp [stall, hv, hop, hd, hf, h1, h2]
  have hbt : branch_taken s = false := by simp [branch_taken, hop]
  have hex : exLatch s =
      { valid := true, instr := s.idex.instr,
        aluOut := wrap32 (operandA s + sign_extend16 s.idex.instr.imm),
        rtValFwd := operandB s } := by
    simp [exLatch, hv, hop]
  have hid : idLatch s = { valid := true, instr := bubble, rsVal := 0, rtVal := 0 } := by
    simp [idLatch, hf, hst]
  have hif : ifLatch prog s = s.ifid := by simp [ifLatch, hbt, hst]
  have hst1 : stall (cycle prog s) = false := by
    simp [stall, cycle, hid, bubble]
  have hid2 : idLatch (cycle prog s) =
      { valid := true, instr := s.ifid.instr,
        rsVal := wbRegs (cycle prog s) s.ifid.instr.rs,
        rtVal := wbRegs (cycle prog s) s.ifid.instr.rt } := by
    simp only [idLatch, hst1]
    simp [cycle, hif, hf]
  have hex2 : exLatch (cycle prog s) = { valid := true, instr := bubble } := by
    simp [exLatch, cycle, hid, bubble]
  have hmem2 : memLatch (cycle prog s) =
      { valid := true, instr := s.idex.instr,
        aluOut := (cycle prog s).exmem.aluOut,
        memData := readMem (cycle prog s).memory (cycle prog s).exmem.aluOut } := by
    simp [memLatch, cycle, hex, hop]
  have e1x : (cycle prog s).exmem = exLatch s := rfl
  have e1i : (cycle prog s).idex = idLatch s := rfl
  have e2m : (cycle prog (cycle prog s)).memwb = memLatch (cycle prog s) := rfl
  have e2x : (cycle prog (cycle prog s)).exmem = exLatch (cycle prog s) := rfl
  have e2i : (cycle prog (cycle prog s)).idex = idLatch (cycle prog s) := rfl
  refine ⟨by simp [pipeline_empty, hv], hst, ?_, hst1, ?_, ?_, ?_, ?_, ?_, ?_, ?_, ?_, ?_⟩
  · simp [pipeline_empty, e1i, hid]
  · simp [pipeline_empty, e2i, hid2]
  · rw [e2i, hid2]
  · rw [e2i, hid2]
  · rw [e1x, hex]
  · rw [e1x, hex]
  · rw [e2m, hmem2]
  · rw [e2m, hmem2]
  · intro h1 h2
    simp only [operandA, e2m, e2x, e2i, hmem2, hex2, hid2]
    simp [bubble, Instr.writesReg, hop, get_wb_value, h1, h2, hd]
  · intro h1 h2
    simp only [operandB, e2m, e2x, e2i, hmem2, hex2, hid2]
    simp [bubble, Instr.writesReg, hop, get_wb_value, h1, h2, hd]

/-- C4 at a concrete state: cycle 3 of the end-to-end example, with `lw r2,0(r0)` in
after-decode and `add r3,r2,r2` in after-fetch; both operands resolve to the loaded 7. -/
theorem loadUse_stall_delivers_witness :
    loadUseState.idex.instr = iLW 2 0 0 0 ∧ loadUseState.ifid.instr = iADD 3 2 2 1 ∧
    stall loadUseState = true ∧ stall (cycle progLoadUse loadUseState) = false ∧
    operandA (cycle progLoadUse (cycle progLoadUse loadUseState)) = 7 ∧
    operandB (cycle progLoadUse (cycle progLoadUse loadUseState)) = 7 := by
  have h := loadUse_stall_delivers_loaded_value progLoadUse loadUseState
    (by decide) (by decide) (by decide) (by decide) (Or.inl (by decide))
  obtain ⟨_, h2, _, h4, _, _, _, _, _, _, _, hA, hB⟩ := h
  refine ⟨by decide, by decide, h2, h4, ?_, ?_⟩
  · rw [hA (by decide) (by decide)]; decide
  · rw [hB (by decide) (by decide)]; decide

/-! ## Fuel -/

/-- A run that finishes within `fuel` cycles gives the same result with any larger fuel. -/
lemma runLoop_result_mono (prog : List Instr) :
    ∀ (fuel : Nat) (s : State) (res : SimResult) (tr : List TraceRow) (r : SimResult),
      (runLoop prog fuel s res tr).result = some r →
      ∀ k : Nat, (runLoop prog (fuel + k) s res tr).result = some r := by
  intro fuel
  induction fuel with
  | zero =>
      intro s res tr r h k
      cases he : pipeline_empty prog s
      · simp [runLoop, he, Outcome.result] at h
      · cases k with
        | zero => exact h
        | succ k =>
            simp only [runLoop, he, if_true, Outcome.result] at h
            simp only [Nat.zero_add, runLoop, he, if_true, Outcome.result]
            exact h
  | succ fuel ih =>
      intro s res tr r h k
      rw [Nat.add_right_comm]
      cases he : pipeline_empty prog s
      · cases hff : fetchFault prog s
        · simp only [runLoop, he, hff, Bool.false_eq_true, if_false] at h
          simp only [runLoop, he, hff, Bool.false_eq_true, if_false]
          exact ih _ _ _ r h k
        · simp [runLoop, he, hff, Outcome.result] at h
      · simp only [runLoop, he, if_true, Outcome.result] at h
        simp only [runLoop, he, if_true, Outcome.result]
        exact h

/-! ## Branch-free programs: cycle and retire counts -/

lemma progAt_natCast (prog : List Instr) (p : Nat) : progAt prog (p : Int) = prog.getD p {} := by
  simp [progAt]

lemma hazard_bubble (b : Instr) : hazard bubble b = false := by
  simp [hazard, bubble]

lemma stall_eq_hazard (s : State) :
    stall s = (s.ifid.valid && s.idex.valid && hazard s.idex.instr s.ifid.instr) := by
  unfold stall hazard
  cases s.ifid.valid <;> cases s.idex.valid <;> cases hop : s.idex.instr.op == Op.LW <;>
    by_cases hd : s.idex.instr.destReg = 0 <;> simp [hd]

lemma exLatch_valid (s : State) : (exLatch s).valid = s.idex.valid := by
  unfold exLatch
  cases hv : s.idex.valid
  · simp
  · simp only [if_true]; split <;> rfl

lemma exLatch_instr (s : State) (hv : s.idex.valid = true) :
    (exLatch s).instr = s.idex.instr := by
  unfold exLatch
  simp only [hv, if_true]; split <;> rfl

lemma countsRetired_false (i : Instr) : countsRetired false i = 0 := by
  simp [countsRetired]

lemma countsRetired_exLatch (s : State) :
    countsRetired (exLatch s).valid (exLatch s).instr
      = countsRetired s.idex.valid s.idex.instr := by
  cases hv : s.idex.valid
  · rw [exLatch_valid, hv]; simp [countsRetired]
  · rw [exLatch_valid, exLatch_instr s hv, hv]

lemma countsRetired_memLatch (s : State) :
    countsRetired (memLatch s).valid (memLatch s).instr
      = countsRetired s.exmem.valid s.exmem.instr := by
  cases hv : s.exmem.valid <;> simp [memLatch, hv, countsRetired]

lemma wbRetired_eq (s : State) : wbRetired s = countsRetired s.memwb.valid s.memwb.instr := by
  unfold wbRetired countsRetired Instr.writesReg
  cases s.memwb.valid <;> cases s.memwb.instr.op <;> simp

lemma hazardCount_drop (prog : List Instr) (p : Nat) (h : p + 1 < prog.length) :
    hazardCount (prog.drop p)
      = (if hazard (prog.getD p {}) (prog.getD (p + 1) {}) then 1 else 0)
        + hazardCount (prog.drop (p + 1)) := by
  have h0 : p < prog.length := by omega
  rw [List.drop_eq_getElem_cons h0, List.drop_eq_getElem_cons h,
    List.getD_eq_getElem _ _ h0, List.getD_eq_getElem _ _ h]
  simp [hazardCount]

lemma hazardCount_drop_last (prog : List Instr) (p : Nat) (h : p + 1 = prog.length) :
    hazardCount (prog.drop p) = 0 := by
  have h0 : p < prog.length := by omega
  rw [List.drop_eq_getElem_cons h0, List.drop_eq_nil_of_le (by omega)]
  simp [hazardCount]

lemma nonNops_drop (prog : List Instr) (p : Nat) (h : p < prog.length) :
    nonNops (prog.drop p)
      = countsRetired true (prog.getD p {}) + nonNops (prog.drop (p + 1)) := by
  rw [List.drop_eq_getElem_cons h, List.getD_eq_getElem _ _ h]
  unfold nonNops countsRetired
  rw [List.filter_cons]
  by_cases hn : prog[p].op = Op.NOP
  · rw [if_neg (by simp [hn]), if_neg (by simp [hn])]; omega
  · rw [if_pos (by simp [hn]), if_pos (by simp [hn]), List.length_cons]; omega

lemma nonNops_drop_ge (prog : List Instr) (p : Nat) (h : prog.length ≤ p) :
    nonNops (prog.drop p) = 0 := by
  rw [List.drop_eq_nil_of_le h]; rfl

lemma branch_taken_of_flowInv (s : State) (h : flowInv s) : branch_taken s = false := by
  unfold branch_taken
  cases hv : s.idex.valid
  · simp
  · have := h.2.2 hv
    simp [this]

lemma idLatch_stall (s : State) (hst : stall s = true) :
    idLatch s = { valid := true, instr := bubble, rsVal := 0, rtVal := 0 } := by
  have hf : s.ifid.valid = true := by
    rw [stall_eq_hazard] at hst
    cases h : s.ifid.valid
    · simp [h] at hst
    · rfl
  simp [idLatch, hf, hst]

lemma idLatch_valid_noStall (s : State) (hst : stall s = false) :
    (idLatch s).valid = s.ifid.valid := by
  cases h : s.ifid.valid <;> simp [idLatch, h, hst]

lemma idLatch_instr_noStall (s : State) (hst : stall s = false) (hf : s.ifid.valid = true) :
    (idLatch s).instr = s.ifid.instr := by
  simp [idLatch, hf, hst]

lemma memLatch_valid (s : State) : (memLatch s).valid = s.exmem.valid := by
  cases h : s.exmem.valid <;> simp [memLatch, h]

/-- One branch-free cycle that stalls: the counts go down by one cycle and by what retires. -/
lemma flow_step_stall (prog : List Instr) (s : State) (hinv : flowInv s)
    (hst : stall s = true) :
    flowInv (cycle prog s) ∧ fetchFault prog s = false ∧
    remaining prog s = remaining prog (cycle prog s) + 1 ∧
    pending prog s = pending prog (cycle prog s) + wbRetired s := by
  have hbt := branch_taken_of_flowInv s hinv
  have hPC : (cycle prog s).PC = s.PC := by simp [cycle, nextPC, hbt, hst]
  have hif : (cycle prog s).ifid = s.ifid := by simp [cycle, ifLatch, hbt, hst]
  have hid : (cycle prog s).idex = { valid := true, instr := bubble, rsVal := 0, rtVal := 0 } :=
    idLatch_stall s hst
  have hxv : (cycle prog s).exmem = exLatch s := rfl
  have hmv : (cycle prog s).memwb = memLatch s := rfl
  have hfv : s.ifid.valid = true := by
    rw [stall_eq_hazard] at hst
    cases h : s.ifid.valid
    · simp [h] at hst
    · rfl
  have hst1 : stall (cycle prog s) = false := by
    rw [stall_eq_hazard, hid]; simp [hazard_bubble]
  refine ⟨⟨by rw [hPC]; exact hinv.1, by rw [hif]; exact hinv.2.1, ?_⟩, ?_, ?_, ?_⟩
  · rw [hid]; intro _; simp [bubble]
  · simp [fetchFault, hst]
  · unfold remaining
    rw [hPC, hif, hst1, hst, hfv]
    by_cases hlt : s.PC < (prog.length : Int)
    · simp only [hlt, if_true]
      simp
      omega
    · simp [hlt]
  · unfold pending
    rw [hPC, hif, hid, hxv, hmv, countsRetired_exLatch, countsRetired_memLatch, wbRetired_eq]
    simp [countsRetired, bubble]
    omega

/-- One branch-free cycle that does not stall. -/
lemma flow_step_noStall (prog : List Instr) (hnb : noBranch prog) (s : State)
    (hinv : flowInv s) (hne : pipeline_empty prog s = false) (hst : stall s = false) :
    flowInv (cycle prog s) ∧ fetchFault prog s = false ∧
    remaining prog s = remaining prog (cycle prog s) + 1 ∧
    pending prog s = pending prog (cycle prog s) + wbRetired s := by
  have hbt := branch_taken_of_flowInv s hinv
  obtain ⟨p, hp⟩ := Int.eq_ofNat_of_zero_le hinv.1
  have hPC : (cycle prog s).PC = ((p + 1 : Nat) : Int) := by
    simp [cycle, nextPC, hbt, hst, hp]
  have hidv : (cycle prog s).idex.valid = s.ifid.valid := idLatch_valid_noStall s hst
  have hidi : s.ifid.valid = true → (cycle prog s).idex.instr = s.ifid.instr :=
    idLatch_instr_noStall s hst
  have hxe : (cycle prog s).exmem = exLatch s := rfl
  have hme : (cycle prog s).memwb = memLatch s := rfl
  have hxv : (cycle prog s).exmem.valid = s.idex.valid := exLatch_valid s
  have hmv : (cycle prog s).memwb.valid = s.exmem.valid := memLatch_valid s
  have hcid : countsRetired (cycle prog s).idex.valid (cycle prog s).idex.instr
      = countsRetired s.ifid.valid s.ifid.instr := by
    cases hf : s.ifid.valid
    · rw [hidv, hf]; simp [countsRetired]
    · rw [hidv, hidi hf, hf]
  have hidop : (cycle prog s).idex.valid = true → (cycle prog s).idex.instr.op ≠ Op.BEQ := by
    intro h
    rw [hidv] at h
    rw [hidi h]
    exact hinv.2.1 h
  have hff : fetchFault prog s = false := by simp [fetchFault, hp]
  by_cases hlt : p < prog.length
  · have hif : (cycle prog s).ifid = { valid := true, instr := prog.getD p {} } := by
      have hlt2 : (p : Int) < (prog.length : Int) := by exact_mod_cast hlt
      simp [cycle, ifLatch, hbt, hst, hp, hlt2, progAt_natCast]
    have hst1 : stall (cycle prog s)
        = (s.ifid.valid && hazard s.ifid.instr (prog.getD p {})) := by
      rw [stall_eq_hazard, hif, hidv]
      cases hf : s.ifid.valid
      · simp
      · simp [hidi hf]
    refine ⟨⟨by rw [hPC]; exact Int.natCast_nonneg _, ?_, hidop⟩, hff, ?_, ?_⟩
    · intro _
      rw [hif]
      rw [List.getD_eq_getElem _ _ hlt]
      exact hnb _ (List.getElem_mem _)
    · unfold remaining
      rw [hPC, hst1, hif, hst, hp]
      have hlt2 : (p : Int) < (prog.length : Int) := by exact_mod_cast hlt
      simp only [hlt2, if_true, Int.toNat_natCast, progAt_natCast]
      by_cases hlt3 : p + 1 < prog.length
      · have hlt4 : ((p + 1 : Nat) : Int) < (prog.length : Int) := by exact_mod_cast hlt3
        simp only [hlt4, if_true]
        rw [hazardCount_drop prog p hlt3]
        simp
        omega
      · have hlt4 : ¬ ((p + 1 : Nat) : Int) < (prog.length : Int) := by
          intro h; exact hlt3 (by exact_mod_cast h)
        simp only [hlt4, if_false]
        rw [hazardCount_drop_last prog p (by omega)]
        simp
        omega
    · unfold pending
      rw [hcid, hxe, hme, countsRetired_exLatch, countsRetired_memLatch, wbRetired_eq, hPC, hif,
        hp]
      simp only [Int.toNat_natCast]
      rw [nonNops_drop prog p hlt]
      omega
  · have hge : ¬ (p : Int) < (prog.length : Int) := by
      intro h; exact hlt (by exact_mod_cast h)
    have hif : (cycle prog s).ifid.valid = false := by
      simp [cycle, ifLatch, hbt, hst, hp, hge]
    have hge1 : ¬ ((p + 1 : Nat) : Int) < (prog.length : Int) := by
      intro h; have : p + 1 < prog.length := by exact_mod_cast h
      omega
    refine ⟨⟨by rw [hPC]; exact Int.natCast_nonneg _, ?_, hidop⟩, hff, ?_, ?_⟩
    · intro h; rw [hif] at h; cases h
    · unfold remaining
      rw [hPC, hif, hidv, hxv, hmv, hst, hp]
      simp only [hge, hge1, if_false]
      have hpe := hne
      simp only [pipeline_empty, hp] at hpe
      cases h1 : s.ifid.valid <;> cases h2 : s.idex.valid <;> cases h3 : s.exmem.valid <;>
        cases h4 : s.memwb.valid <;> simp_all
    · unfold pending
      rw [hcid, hxe, hme, countsRetired_exLatch, countsRetired_memLatch, wbRetired_eq, hPC, hif,
        hp, countsRetired_false]
      simp only [Int.toNat_natCast]
      rw [nonNops_drop_ge prog p (by omega), nonNops_drop_ge prog (p + 1) (by omega)]
      omega

/-- One branch-free cycle: the invariant is kept, no out-of-bounds fetch happens, one cycle
less remains and the retired counter grows by what this cycle retires. -/
lemma flow_step (prog : List Instr) (hnb : noBranch prog) (s : State)
    (hinv : flowInv s) (hne : pipeline_empty prog s = false) :
    flowInv (cycle prog s) ∧ fetchFault prog s = false ∧
    remaining prog s = remaining prog (cycle prog s) + 1 ∧
    pending prog s = pending prog (cycle prog s) + wbRetired s := by
  cases hst : stall s
  · exact flow_step_noStall prog hnb s hinv hne hst
  · exact flow_step_stall prog s hinv hst

lemma flow_done (prog : List Instr) (s : State) (hinv : flowInv s)
    (he : pipeline_empty prog s = true) : remaining prog s = 0 ∧ pending prog s = 0 := by
  obtain ⟨p, hp⟩ := Int.eq_ofNat_of_zero_le hinv.1
  simp only [pipeline_empty, hp, Bool.and_eq_true, Bool.not_eq_true', decide_eq_true_eq] at he
  obtain ⟨⟨⟨⟨h0, h1⟩, h2⟩, h3⟩, h4⟩ := he
  have hge : ¬ (p : Int) < (prog.length : Int) := by omega
  have hle : prog.length ≤ p := by exact_mod_cast h0
  constructor
  · simp [remaining, hp, hge, h1, h2, h3, h4]
  · simp [pending, hp, h1, h2, h3, h4, countsRetired, nonNops_drop_ge prog p hle]

/-- A branch-free run from an invariant state finishes after exactly `remaining` more
cycles and retires exactly `pending` more instructions, whatever fuel at least that large. -/
lemma runLoop_flow (prog : List Instr) (hnb : noBranch prog) :
    ∀ (fuel : Nat) (s : State) (res : SimResult) (tr : List TraceRow),
      flowInv s → remaining prog s ≤ fuel →
      (runLoop prog fuel s res tr).result
        = some { cycles := res.cycles + remaining prog s,
                 retired := res.retired + pending prog s } := by
  intro fuel
  induction fuel with
  | zero =>
      intro s res tr hinv hle
      cases he : pipeline_empty prog s
      · have := (flow_step prog hnb s hinv he).2.2.1
        omega
      · obtain ⟨h1, h2⟩ := flow_done prog s hinv he
        simp [runLoop, he, Outcome.result, h1, h2]
  | succ fuel ih =>
      intro s res tr hinv hle
      cases he : pipeline_empty prog s
      · obtain ⟨hinv1, hff, hrem, hpen⟩ := flow_step prog hnb s hinv he
        have hle1 : remaining prog (cycle prog s) ≤ fuel := by omega
        simp only [runLoop, he, hff, Bool.false_eq_true, if_false]
        rw [ih (cycle prog s) _ _ hinv1 hle1, hrem, hpen]
        simp only [Option.some.injEq, SimResult.mk.injEq]
        constructor <;> omega
      · obtain ⟨h1, h2⟩ := flow_done prog s hinv he
        simp [runLoop, he, Outcome.result, h1, h2]

lemma flowInv_init (cfg : SimConfig) : flowInv (initState cfg) := by
  simp [flowInv, initState]

lemma remaining_init (prog : List Instr) (cfg : SimConfig) (hne : prog ≠ []) :
    remaining prog (initState cfg) = prog.length + 4 + hazardCount prog := by
  have hpos : 0 < prog.length := List.length_pos.mpr hne
  have hlt : (0 : Int) < (prog.length : Int) := by exact_mod_cast hpos
  simp [remaining, initState, stall, hlt]

lemma pending_init (prog : List Instr) (cfg : SimConfig) :
    pending prog (initState cfg) = nonNops prog := by
  simp [pending, initState, countsRetired]

lemma hazardCount_drop_of_noLoadUse (prog : List Instr) (h : noLoadUse prog) :
    ∀ (d p : Nat), prog.length - p = d → hazardCount (prog.drop p) = 0 := by
  intro d
  induction d with
  | zero =>
      intro p hp
      rw [List.drop_eq_nil_of_le (by omega)]
      rfl
  | succ d ih =>
      intro p hp
      by_cases hlt : p + 1 < prog.length
      · rw [hazardCount_drop prog p hlt, h p (by omega), ih (p + 1) (by omega)]
        simp
      · exact hazardCount_drop_last prog p (by omega)

lemma hazardCount_of_noLoadUse (prog : List Instr) (h : noLoadUse prog) :
    hazardCount prog = 0 := by
  have := hazardCount_drop_of_noLoadUse prog h prog.length 0 rfl
  simpa using this

/-- The result of `run` on a non-empty branch-free program. -/
lemma run_noBranch (prog : List Instr) (cfg : SimConfig) (hnb : noBranch prog)
    (hne : prog ≠ []) (fuel : Nat) (hfuel : prog.length + 4 + hazardCount prog ≤ fuel) :
    (run prog cfg fuel).result
      = some { cycles := prog.length + 4 + hazardCount prog, retired := nonNops prog } := by
  unfold run
  rw [runLoop_flow prog hnb fuel _ _ _ (flowInv_init cfg)
    (by rw [remaining_init prog cfg hne]; exact hfuel),
    remaining_init prog cfg hne, pending_init]
  simp

/-- The result of `run` on the empty program. -/
lemma run_nil (cfg : SimConfig) (fuel : Nat) :
    (run [] cfg fuel).result = some { cycles := 0, retired := 0 } := by
  cases fuel <;> simp [run, runLoop, pipeline_empty, initState, Outcome.result]

/-! ## The one-instruction loop never finishes -/

lemma operandA_reg_zero (s : State) (h : s.idex.instr.rs = 0) : operandA s = s.idex.rsVal := by
  unfold operandA
  simp only [h]
  split_ifs <;> simp_all

lemma operandB_reg_zero (s : State) (h : s.idex.instr.rt = 0) : operandB s = s.idex.rtVal := by
  unfold operandB
  simp only [h]
  split_ifs <;> simp_all

lemma loop_step (s : State) (h : loopInv s) :
    loopInv (cycle progLoop s) ∧ pipeline_empty progLoop s = false ∧
    fetchFault progLoop s = false := by
  rcases h with ⟨hpc, hf, he⟩ | ⟨hpc, hif, he⟩ | ⟨hpc, hf, hid⟩
  · have hst : stall s = false := by simp [stall, hf]
    have hbt : branch_taken s = false := by simp [branch_taken, he]
    refine ⟨Or.inr (Or.inl ⟨?_, ?_, ?_⟩), ?_, ?_⟩
    · simp [cycle, nextPC, hbt, hst, hpc]
    · simp [cycle, ifLatch, hbt, hst, hpc, progLoop, progAt]
    · simp [cycle, idLatch, hf]
    · simp [pipeline_empty, hpc, progLoop]
    · simp [fetchFault, hpc]
  · have hst : stall s = false := by simp [stall, he]
    have hbt : branch_taken s = false := by simp [branch_taken, he]
    refine ⟨Or.inr (Or.inr ⟨?_, ?_, ?_⟩), ?_, ?_⟩
    · simp [cycle, nextPC, hbt, hst, hpc]
    · simp [cycle, ifLatch, hbt, hst, hpc, progLoop]
    · simp [cycle, idLatch, hif, hst, iBEQ, wbRegs, setReg]
    · simp [pipeline_empty, hif]
    · simp [fetchFault, hpc]
  · have hA : operandA s = 0 := by
      rw [operandA_reg_zero s (by rw [hid]; rfl), hid]
    have hB : operandB s = 0 := by
      rw [operandB_reg_zero s (by rw [hid]; rfl), hid]
    have hse : sign_extend16 (-1) = -1 := by decide
    have hex : (exLatch s).zero = true ∧ (exLatch s).branchTarget = 0 := by
      simp [exLatch, hid, iBEQ, hA, hB, hse]
    have hbt : branch_taken s = true := by
      simp [branch_taken, hid, iBEQ, hex.1]
    refine ⟨Or.inl ⟨?_, ?_, ?_⟩, ?_, ?_⟩
    · simp [cycle, nextPC, hbt, branch_target, hex.2]
    · simp [cycle, ifLatch, hbt]
    · simp [cycle, idLatch, hf]
    · simp [pipeline_empty, hid]
    · simp [fetchFault, hbt]

lemma runLoop_loop : ∀ (fuel : Nat) (s : State) (res : SimResult) (tr : List TraceRow),
    loopInv s → runLoop progLoop fuel s res tr = Outcome.outOfFuel := by
  intro fuel
  induction fuel with
  | zero =>
      intro s res tr h
      simp [runLoop, (loop_step s h).2.1]
  | succ fuel ih =>
      intro s res tr h
      obtain ⟨h1, h2, h3⟩ := loop_step s h
      simp only [runLoop, h2, h3, Bool.false_eq_true, if_false]
      exact ih _ _ _ h1

/-! ## Cycle and retire counts of hazard-free straight-line code -/

/-- C7 (counterexample): the empty program has no branch and no load-use hazard, and `run`
executes 0 cycles on it, not `0 + 4`. -/
theorem empty_program_zero_cycles :
    noBranch ([] : List Instr) ∧ noLoadUse ([] : List Instr) ∧
    (run [] {} 4).result = some { cycles := 0, retired := 0 } ∧
    (run [] {} 4).result.map SimResult.cycles ≠ some (([] : List Instr).length + 4) := by
  decide

/-- C7 (amended): for every non-empty program with no branch-if-equal and no load-use
hazard, `run` terminates with `cycles = program_length + 4`. -/
theorem cycles_hazard_free (prog : List Instr) (cfg : SimConfig) (hne : prog ≠ [])
    (hnb : noBranch prog) (hlu : noLoadUse prog) (fuel : Nat)
    (hfuel : prog.length + 4 ≤ fuel) :
    (run prog cfg fuel).result.map SimResult.cycles = some (prog.length + 4) := by
  have h0 := hazardCount_of_noLoadUse prog hlu
  rw [run_noBranch prog cfg hnb hne fuel (by omega), h0]
  rfl

/-- C7 at `lw r2,0(r0); nop; add r3,r2,r2`: 7 cycles. -/
theorem cycles_hazard_free_witness :
    progStraight ≠ [] ∧ noBranch progStraight ∧ noLoadUse progStraight ∧
    (run progStraight {} 7).result.map SimResult.cycles = some 7 :=
  ⟨by decide, by decide, by decide,
    cycles_hazard_free progStraight {} (by decide) (by decide) (by decide) 7 (by decide)⟩

/-- C8 (counterexample): the one-instruction program `nop` has no branch and no load-use
hazard, and `run` returns `retired = 0`, not the program length 1. -/
theorem nop_program_retires_nothing :
    noBranch [iNOP 0] ∧ noLoadUse [iNOP 0] ∧
    (run [iNOP 0] {} 5).result = some { cycles := 5, retired := 0 } ∧
    (run [iNOP 0] {} 5).result.map SimResult.retired ≠ some [iNOP 0].length := by
  decide

/-- C8 (amended): for every program with no branch-if-equal and no load-use hazard, `run`
terminates with `retired` equal to the number of program instructions that are not no-ops. -/
theorem retired_hazard_free (prog : List Instr) (cfg : SimConfig)
    (hnb : noBranch prog) (hlu : noLoadUse prog) (fuel : Nat)
    (hfuel : prog.length + 4 ≤ fuel) :
    (run prog cfg fuel).result.map SimResult.retired = some (nonNops prog) := by
  by_cases hne : prog = []
  · subst hne
    rw [run_nil]
    rfl
  · have h0 := hazardCount_of_noLoadUse prog hlu
    rw [run_noBranch prog cfg hnb hne fuel (by rw [h0]; omega)]
    rfl

/-- C8 at `lw r2,0(r0); nop; add r3,r2,r2`: two instructions retire. -/
theorem retired_hazard_free_witness :
    noBranch progStraight ∧ noLoadUse progStraight ∧
    (run progStraight {} 7).result.map SimResult.retired = some 2 :=
  ⟨by decide, by decide,
    retired_hazard_free progStraight {} (by decide) (by decide) 7 (by decide)⟩

/-! ## Bound on the length of a run -/

/-- C10 (counterexample): the well-formed three-instruction program of the end-to-end example
runs 8 cycles, more than `4 + 3`; and on the well-formed program `beq r0,r0,-1` the loop of
`run` never ends, whatever the number of cycles allowed. -/
theorem run_exceeds_bound :
    regsInRange progLoadUse ∧
    (run progLoadUse {} 8).result = some { cycles := 8, retired := 3 } ∧
    ¬ (8 ≤ 4 + progLoadUse.length) ∧
    regsInRange progLoop ∧
    (∀ fuel : Nat, (run progLoop {} fuel).result = none) := by
  refine ⟨by decide, by decide, by decide, by decide, ?_⟩
  intro fuel
  have h : loopInv (initState {}) := Or.inl ⟨rfl, rfl, rfl⟩
  unfold run
  rw [runLoop_loop fuel _ _ _ h]
  rfl

/-- C10 (amended): for every program with no branch-if-equal, `run` terminates and executes
at most `4 + program_length + h` cycles, `h` being the number of adjacent load-use pairs. -/
theorem bounded_run_noBranch (prog : List Instr) (cfg : SimConfig) (hnb : noBranch prog)
    (fuel : Nat) (hfuel : 4 + prog.length + hazardCount prog ≤ fuel) :
    ∃ r : SimResult, (run prog cfg fuel).result = some r ∧
      r.cycles ≤ 4 + prog.length + hazardCount prog := by
  by_cases hne : prog = []
  · subst hne
    exact ⟨_, run_nil cfg fuel, Nat.zero_le _⟩
  · refine ⟨_, run_noBranch prog cfg hnb hne fuel (by omega), ?_⟩
    show prog.length + 4 + hazardCount prog ≤ 4 + prog.length + hazardCount prog
    omega

/-- C10 at the end-to-end example: one load-use pair, 8 cycles. -/
theorem bounded_run_noBranch_witness :
    noBranch progLoadUse ∧ hazardCount progLoadUse = 1 ∧
    ∃ r : SimResult, (run progLoadUse {} 8).result = some r ∧ r.cycles ≤ 8 :=
  ⟨by decide, by decide, bounded_run_noBranch progLoadUse {} (by decide) 8 (by decide)⟩

/-! ## Fetch bounds -/

/-- C11 (the code at the failing input): on the well-formed program `beq r0,r0,-5` the
branch resolves taken in cycle 3 and sets `PC = -4`; in cycle 4 the IF step passes the test
`PC < prog.size()` and reads the program store at index `-4`. -/
theorem negative_branch_target_fetch :
    regsInRange progNegBranch ∧
    branch_taken (cyclesN progNegBranch 2 (initState {})) = true ∧
    branch_target (cyclesN progNegBranch 2 (initState {})) = -4 ∧
    negBranchState.PC = -4 ∧
    fetchIndex progNegBranch negBranchState = some (-4) ∧
    fetchFault progNegBranch negBranchState = true ∧
    (run progNegBranch {} 10).isFault = true := by
  decide

/-! ## Frame of one cycle -/

/-- The effect of one cycle on the architectural state, from any state: registers other
than register 0 change only as the destination of a valid register-writing instruction in
after-memory, register 0 becomes 0, memory changes only at the address of a valid store-word
in after-execute, and not at all with a load-word there. -/
lemma cycle_frame_all_states (prog : List Instr) (s : State) :
    (∀ r : Int, r ≠ 0 →
      ¬ (s.memwb.valid = true ∧ s.memwb.instr.writesReg = true ∧ s.memwb.instr.destReg = r) →
      (cycle prog s).R r = s.R r) ∧
    (cycle prog s).R 0 = 0 ∧
    (∀ a : Int,
      ¬ (s.exmem.valid = true ∧ s.exmem.instr.op = Op.SW ∧ s.exmem.aluOut = a) →
      (cycle prog s).memory a = s.memory a) ∧
    (s.exmem.instr.op = Op.LW → (cycle prog s).memory = s.memory) := by
  refine ⟨?_, ?_, ?_, ?_⟩
  · intro r hr hn
    have hne : (s.memwb.valid && s.memwb.instr.writesReg) = true →
        r ≠ s.memwb.instr.destReg := by
      intro h1 h3
      simp only [Bool.and_eq_true] at h1
      exact hn ⟨h1.1, h1.2, h3.symm⟩
    simp only [cycle, setReg, wbRegs, hr, if_false]
    by_cases h1 : (s.memwb.valid && s.memwb.instr.writesReg) = true
    · have h2 := hne h1
      simp only [h1, if_true]
      split_ifs <;> first | rfl | simp [setReg, h2]
    · simp only [h1, Bool.false_eq_true, if_false]
  · simp [cycle, setReg]
  · intro a hn
    simp only [cycle, memMemory]
    split_ifs with h1
    · simp only [Bool.and_eq_true, beq_iff_eq] at h1
      simp only [setMem]
      split_ifs with h2
      · exact absurd ⟨h1.1, h1.2, h2.symm⟩ hn
      · rfl
    · rfl
  · intro h
    simp [cycle, memMemory, h]

/-- C12: for every state whose register 0 holds 0 (the constructor state and every state
after a cycle), one cycle leaves every register unchanged except possibly the destination
register of a valid register-writing instruction in after-memory, and leaves the memory map
(values and set of written addresses) unchanged except possibly at the effective address of
a valid store-word in after-execute; a load-word in after-execute adds no entry to memory. -/
theorem cycle_frame (prog : List Instr) (s : State) (h0 : s.R 0 = 0) :
    (∀ r : Int,
      ¬ (s.memwb.valid = true ∧ s.memwb.instr.writesReg = true ∧ s.memwb.instr.destReg = r) →
      (cycle prog s).R r = s.R r) ∧
    (∀ a : Int,
      ¬ (s.exmem.valid = true ∧ s.exmem.instr.op = Op.SW ∧ s.exmem.aluOut = a) →
      (cycle prog s).memory a = s.memory a) ∧
    (s.exmem.instr.op = Op.LW → (cycle prog s).memory = s.memory) := by
  obtain ⟨h1, h2, h3, h4⟩ := cycle_frame_all_states prog s
  refine ⟨?_, h3, h4⟩
  intro r hn
  by_cases hr : r = 0
  · rw [hr, h2, h0]
  · exact h1 r hr hn

/-- C12 at the start of cycle 5 of `lw r1,0(r0); nop; nop; add r2,r1,r1`, with the load in
after-memory: register 2 and memory word 4 are unchanged by the cycle. -/
theorem cycle_frame_witness :
    writebackState.R 0 = 0 ∧
    (cycle progWriteback writebackState).R 2 = writebackState.R 2 ∧
    (cycle progWriteback writebackState).memory 4 = writebackState.memory 4 :=
  have h := cycle_frame progWriteback writebackState (by decide)
  ⟨by decide, h.1 2 (by decide), h.2.1 4 (by decide)⟩

/-! ## Load-use detection -/

/-- C13: the stall flag is raised exactly when after-fetch is valid, after-decode is valid
and holds a load-word with destination `d ≠ 0`, and the after-fetch instruction reads `d`:
as `rs` for add, sub, lw, sw, beq, or as `rt` for add, sub, sw, beq. -/
theorem stall_iff_loadUse (s : State) :
    stall s = true ↔
      (s.ifid.valid = true ∧ s.idex.valid = true ∧ s.idex.instr.op = Op.LW ∧
        s.idex.instr.destReg ≠ 0 ∧
        (((s.ifid.instr.op = Op.ADD ∨ s.ifid.instr.op = Op.SUB ∨ s.ifid.instr.op = Op.LW ∨
              s.ifid.instr.op = Op.SW ∨ s.ifid.instr.op = Op.BEQ) ∧
            s.ifid.instr.rs = s.idex.instr.destReg) ∨
          ((s.ifid.instr.op = Op.ADD ∨ s.ifid.instr.op = Op.SUB ∨
              s.ifid.instr.op = Op.SW ∨ s.ifid.instr.op = Op.BEQ) ∧
            s.ifid.instr.rt = s.idex.instr.destReg))) := by
  rw [stall_eq_hazard]
  unfold hazard Instr.usesRS Instr.usesRT
  cases s.ifid.valid <;> cases s.idex.valid <;> cases s.idex.instr.op <;>
    cases s.ifid.instr.op <;> simp

/-! ## Stall and the front end -/

lemma exLatch_of_nop (s : State) (hv : s.idex.valid = true) (hop : s.idex.instr.op = Op.NOP) :
    exLatch s = { valid := true, instr := s.idex.instr } := by
  simp [exLatch, hv, hop]

/-- C14: in a cycle that raises the stall flag the program counter and the after-fetch
latch are unchanged, and the next after-decode latch holds the bubble no-op; the bubble
writes no register, and when it reaches Writeback three cycles later it is not counted as
retired and the Writeback step changes no register other than clearing register 0. -/
theorem stall_holds_front_end (prog : List Instr) (s : State) (hst : stall s = true) :
    (cycle prog s).PC = s.PC ∧ (cycle prog s).ifid = s.ifid ∧
    (cycle prog s).idex.valid = true ∧ (cycle prog s).idex.instr = bubble ∧
    bubble.op = Op.NOP ∧ bubble.writesReg = false ∧
    (cycle prog (cycle prog (cycle prog s))).memwb.valid = true ∧
    (cycle prog (cycle prog (cycle prog s))).memwb.instr = bubble ∧
    wbRetired (cycle prog (cycle prog (cycle prog s))) = 0 ∧
    (∀ r : Int, r ≠ 0 →
      wbRegs (cycle prog (cycle prog (cycle prog s))) r
        = (cycle prog (cycle prog (cycle prog s))).R r) := by
  have hop : s.idex.instr.op = Op.LW := by
    by_contra hne
    have : stall s = false := by
      rw [stall_eq_hazard]; simp [hazard, hne]
    rw [this] at hst
    cases hst
  have hbt : branch_taken s = false := by simp [branch_taken, hop]
  have h1 : (cycle prog s).idex = { valid := true, instr := bubble, rsVal := 0, rtVal := 0 } :=
    idLatch_stall s hst
  have h2 : (cycle prog (cycle prog s)).exmem = { valid := true, instr := bubble } := by
    show exLatch (cycle prog s) = _
    rw [exLatch_of_nop (cycle prog s) (by rw [h1]) (by rw [h1]; rfl), h1]
  have h3 : (cycle prog (cycle prog (cycle prog s))).memwb
      = { valid := true, instr := bubble } := by
    show memLatch (cycle prog (cycle prog s)) = _
    simp [memLatch, h2, bubble]
  refine ⟨by simp [cycle, nextPC, hbt, hst], by simp [cycle, ifLatch, hbt, hst],
    by rw [h1], by rw [h1], rfl, rfl, by rw [h3], by rw [h3], ?_, ?_⟩
  · simp [wbRetired, h3, bubble, Instr.writesReg]
  · intro r hr
    simp [wbRegs, h3, bubble, Instr.writesReg, setReg, hr]

/-- C14 at cycle 3 of the end-to-end example, the cycle that stalls. -/
theorem stall_holds_front_end_witness :
    stall loadUseState = true ∧ (cycle progLoadUse loadUseState).PC = 2 ∧
    (cycle progLoadUse loadUseState).ifid = { valid := true, instr := iADD 3 2 2 1 } ∧
    (cycle progLoadUse loadUseState).idex.instr = bubble :=
  have h := stall_holds_front_end progLoadUse loadUseState (by decide)
  ⟨by decide, h.1.trans (by decide), h.2.1.trans (by decide), h.2.2.2.1⟩

/-! ## Validity flags and bubbles -/

lemma cyclesN_succ (prog : List Instr) :
    ∀ (k : Nat) (s : State), cyclesN prog (k + 1) s = cycle prog (cyclesN prog k s) := by
  intro k
  induction k with
  | zero => intro s; rfl
  | succ k ih =>
      intro s
      show cyclesN prog (k + 1) (cycle prog s) = _
      rw [ih (cycle prog s)]
      rfl

lemma memLatch_instr (s : State) (hv : s.exmem.valid = true) :
    (memLatch s).instr = s.exmem.instr := by
  simp [memLatch, hv]

lemma latchInv_step (prog : List Instr) (s : State) (h : latchInv prog s)
    (hff : fetchFault prog s = false) : latchInv prog (cycle prog s) := by
  obtain ⟨h1, h2, h3, h4⟩ := h
  refine ⟨?_, ?_, ?_, ?_⟩
  · show (ifLatch prog s).valid = true → (ifLatch prog s).instr ∈ prog
    unfold ifLatch
    split_ifs with hb hs hp
    · intro hv; cases hv
    · exact h1
    · intro _
      have h0 : 0 ≤ s.PC := by
        by_contra hneg
        have : fetchFault prog s = true := by
          simp only [fetchFault, Bool.and_eq_true, Bool.not_eq_true', decide_eq_true_eq]
          exact ⟨⟨⟨by simpa using hb, by simpa using hs⟩, hp⟩, by omega⟩
        rw [this] at hff
        cases hff
      obtain ⟨p, hp0⟩ := Int.eq_ofNat_of_zero_le h0
      have hlt : p < prog.length := by
        rw [hp0] at hp
        exact_mod_cast hp
      show progAt prog s.PC ∈ prog
      rw [hp0, progAt_natCast, List.getD_eq_getElem _ _ hlt]
      exact List.getElem_mem _
    · intro hv; cases hv
  · show (idLatch s).valid = true → (idLatch s).instr ∈ prog ∨ (idLatch s).instr = bubble
    cases hs : stall s
    · cases hf : s.ifid.valid
      · intro hv
        rw [idLatch_valid_noStall s hs, hf] at hv
        cases hv
      · intro _
        rw [idLatch_instr_noStall s hs hf]
        exact Or.inl (h1 hf)
    · intro _
      rw [idLatch_stall s hs]
      exact Or.inr rfl
  · show (exLatch s).valid = true → (exLatch s).instr ∈ prog ∨ (exLatch s).instr = bubble
    intro hv
    rw [exLatch_valid] at hv
    rw [exLatch_instr s hv]
    exact h2 hv
  · show (memLatch s).valid = true → (memLatch s).instr ∈ prog ∨ (memLatch s).instr = bubble
    intro hv
    rw [memLatch_valid] at hv
    rw [memLatch_instr s hv]
    exact h3 hv

/-- C15 (counterexample): right after the stall of the end-to-end example the after-decode
latch has its validity flag true and carries the synthesized bubble, which is not an
instruction of the program; one and two cycles later the valid after-execute and
after-memory latches carry it. -/
theorem valid_latch_holds_bubble :
    afterStallState.idex.valid = true ∧ afterStallState.idex.instr = bubble ∧
    bubble ∉ progLoadUse ∧
    (cycle progLoadUse afterStallState).exmem.valid = true ∧
    (cycle progLoadUse afterStallState).exmem.instr = bubble ∧
    (cycle progLoadUse (cycle progLoadUse afterStallState)).memwb.valid = true ∧
    (cycle progLoadUse (cycle progLoadUse afterStallState)).memwb.instr = bubble := by
  decide

/-- C15 (amended): in every state reached from the constructor state by cycles without an
out-of-bounds fetch, a valid after-fetch latch carries an instruction of the program, and a
valid after-decode, after-execute or after-memory latch carries an instruction of the
program or the bubble no-op injected by a stall. -/
theorem valid_latch_program_or_bubble (prog : List Instr) (cfg : SimConfig) (k : Nat)
    (hff : ∀ j < k, fetchFault prog (cyclesN prog j (initState cfg)) = false) :
    latchInv prog (cyclesN prog k (initState cfg)) := by
  induction k with
  | zero =>
      refine ⟨?_, ?_, ?_, ?_⟩ <;> intro hv <;> simp [cyclesN, initState] at hv
  | succ k ih =>
      rw [cyclesN_succ]
      exact latchInv_step prog _ (ih (fun j hj => hff j (by omega))) (hff k (by omega))

/-- C15 at the fourth state of the end-to-end example. -/
theorem valid_latch_program_or_bubble_witness :
    (∀ j < 3, fetchFault progLoadUse (cyclesN progLoadUse j (initState {})) = false) ∧
    latchInv progLoadUse (cyclesN progLoadUse 3 (initState {})) :=
  ⟨by decide, valid_latch_program_or_bubble progLoadUse {} 3 (by decide)⟩

/-! ## Decode and Writeback in one cycle -/

/-- C16 (counterexample): at the start of cycle 5 of `lw r1,0(r0); nop; nop; add r2,r1,r1`
register 1 holds 0, the load is in after-memory with the loaded 7 and the add is in
after-fetch; the operands Decode latches in this cycle are 7, the value Writeback writes in
the same cycle, not the start-of-cycle content 0. -/
theorem decode_observes_same_cycle_writeback :
    writebackState.memwb.valid = true ∧ writebackState.memwb.instr = iLW 1 0 0 0 ∧
    writebackState.memwb.memData = 7 ∧
    writebackState.ifid = { valid := true, instr := iADD 2 1 1 3 } ∧
    stall writebackState = false ∧ writebackState.R 1 = 0 ∧
    (cycle progWriteback writebackState).idex.instr = iADD 2 1 1 3 ∧
    (cycle progWriteback writebackState).idex.rsVal = 7 ∧
    (cycle progWriteback writebackState).idex.rtVal = 7 ∧
    (cycle progWriteback writebackState).idex.rsVal ≠ writebackState.R 1 := by
  decide

/-- The register file as Decode sees it, in terms of the start-of-cycle state: register 0
reads 0, the destination of a valid register-writing instruction in after-memory reads the
value Writeback writes in this cycle, any other register reads its start-of-cycle content. -/
lemma wbRegs_apply (s : State) (r : Int) :
    wbRegs s r =
      if r = 0 then 0
      else if s.memwb.valid = true ∧ s.memwb.instr.writesReg = true ∧ s.memwb.instr.destReg = r
      then (if s.memwb.instr.op = Op.LW then s.memwb.memData else s.memwb.aluOut)
      else s.R r := by
  unfold wbRegs
  by_cases hr : r = 0
  · simp [setReg, hr]
  · simp only [setReg, hr, if_false]
    by_cases h1 : (s.memwb.valid && s.memwb.instr.writesReg) = true
    · have h1c := h1
      simp only [Bool.and_eq_true] at h1c
      simp only [h1, if_true]
      by_cases h3 : s.memwb.instr.destReg = r
      · have h0 : s.memwb.instr.destReg ≠ 0 := by rw [h3]; exact hr
        simp only [h0, ne_eq, not_false_eq_true, if_true, setReg, h3, h1c.1, h1c.2, and_self]
        by_cases hl : s.memwb.instr.op = Op.LW <;> simp [hl, hr, setReg]
      · have h3c : ¬ r = s.memwb.instr.destReg := fun h => h3 h.symm
        have hc : ¬ (s.memwb.valid = true ∧ s.memwb.instr.writesReg = true ∧
            s.memwb.instr.destReg = r) := fun h => h3 h.2.2
        rw [if_neg hc]
        split_ifs <;> first | rfl | simp [setReg, h3c]
    · have hc : ¬ (s.memwb.valid = true ∧ s.memwb.instr.writesReg = true ∧
          s.memwb.instr.destReg = r) := by
        intro h
        apply h1
        simp [h.1, h.2.1]
      simp only [h1, Bool.false_eq_true, if_false]
      rw [if_neg hc]

/-- C16 (amended): in a cycle that decodes (after-fetch valid, no stall) the operand values
latched into the next after-decode latch are the register-file contents after the Writeback
step of the same cycle: a source register that is the non-zero destination of a valid
register-writing instruction in after-memory is latched with the value written in this
cycle, register 0 with 0, any other register with its start-of-cycle content. -/
theorem decode_reads_after_writeback (prog : List Instr) (s : State)
    (hf : s.ifid.valid = true) (hst : stall s = false) :
    (cycle prog s).idex.valid = true ∧ (cycle prog s).idex.instr = s.ifid.instr ∧
    (cycle prog s).idex.rsVal =
      (if s.ifid.instr.rs = 0 then 0
       else if s.memwb.valid = true ∧ s.memwb.instr.writesReg = true ∧
          s.memwb.instr.destReg = s.ifid.instr.rs
       then (if s.memwb.instr.op = Op.LW then s.memwb.memData else s.memwb.aluOut)
       else s.R s.ifid.instr.rs) ∧
    (cycle prog s).idex.rtVal =
      (if s.ifid.instr.rt = 0 then 0
       else if s.memwb.valid = true ∧ s.memwb.instr.writesReg = true ∧
          s.memwb.instr.destReg = s.ifid.instr.rt
       then (if s.memwb.instr.op = Op.LW then s.memwb.memData else s.memwb.aluOut)
       else s.R s.ifid.instr.rt) := by
  have hid : (cycle prog s).idex =
      { valid := true, instr := s.ifid.instr,
        rsVal := wbRegs s s.ifid.instr.rs, rtVal := wbRegs s s.ifid.instr.rt } := by
    show idLatch s = _
    simp [idLatch, hf, hst]
  rw [hid]
  exact ⟨rfl, rfl, wbRegs_apply s _, wbRegs_apply s _⟩

/-- C16 at cycle 5 of `lw r1,0(r0); nop; nop; add r2,r1,r1`. -/
theorem decode_reads_after_writeback_witness :
    writebackState.ifid.valid = true ∧ stall writebackState = false ∧
    (cycle progWriteback writebackState).idex.rsVal = 7 :=
  have h := decode_reads_after_writeback progWriteback writebackState (by decide) (by decide)
  ⟨by decide, by decide, h.2.2.1.trans (by decide)⟩

/-! ## Sign extension of the immediate -/

/-- C17: `sign_extend16 x` is the unique value in `[-32768, 32767]` congruent to `x` modulo
65536; so it is `x` itself when `x` lies in that range and a wrapped value otherwise
(32768 becomes -32768); the Execute step uses it for the effective address of a load or
store (`A + sign_extend16 imm`) and for the branch target (`pc + 1 + sign_extend16 imm`). -/
theorem sign_extend16_spec :
    (∀ x : Int, -32768 ≤ sign_extend16 x ∧ sign_extend16 x ≤ 32767 ∧
      (sign_extend16 x - x) % 65536 = 0) ∧
    (∀ x v : Int, -32768 ≤ v → v ≤ 32767 → (v - x) % 65536 = 0 → v = sign_extend16 x) ∧
    (∀ x : Int, -32768 ≤ x → x ≤ 32767 → sign_extend16 x = x) ∧
    sign_extend16 32768 = -32768 ∧
    (∀ s : State, s.idex.valid = true → s.idex.instr.op = Op.LW ∨ s.idex.instr.op = Op.SW →
      (exLatch s).aluOut = wrap32 (operandA s + sign_extend16 s.idex.instr.imm)) ∧
    (∀ s : State, s.idex.valid = true → s.idex.instr.op = Op.BEQ →
      (exLatch s).branchTarget = s.idex.instr.pc + 1 + sign_extend16 s.idex.instr.imm ∧
      (branch_taken s = true →
        branch_target s = s.idex.instr.pc + 1 + sign_extend16 s.idex.instr.imm)) := by
  refine ⟨?_, ?_, ?_, by decide, ?_, ?_⟩
  · intro x
    unfold sign_extend16
    simp only
    split_ifs <;> omega
  · intro x v h1 h2 h3
    unfold sign_extend16
    simp only
    split_ifs <;> omega
  · intro x h1 h2
    unfold sign_extend16
    simp only
    split_ifs <;> omega
  · intro s hv hop
    rcases hop with hop | hop <;> simp [exLatch, hv, hop]
  · intro s hv hop
    have h1 : (exLatch s).branchTarget
        = s.idex.instr.pc + 1 + sign_extend16 s.idex.instr.imm := by
      simp [exLatch, hv, hop]
    refine ⟨h1, ?_⟩
    intro hb
    simp [branch_target, hb, h1]

/-! ## Exact counts of straight-line code -/

lemma hazardCount_eq_loadUsePairs : ∀ prog : List Instr, hazardCount prog = loadUsePairs prog
  | [] => by simp [hazardCount, loadUsePairs]
  | [_] => by simp [hazardCount, loadUsePairs]
  | a :: b :: rest => by
      have ih := hazardCount_eq_loadUsePairs (b :: rest)
      unfold loadUsePairs at ih ⊢
      simp only [List.length_cons, Nat.add_sub_cancel] at ih ⊢
      rw [List.range_succ_eq_map, List.filter_cons, List.filter_map, hazardCount, ih]
      have hfun :
          ((fun i => hazard ((a :: b :: rest).getD i {}) ((a :: b :: rest).getD (i + 1) {}))
            ∘ Nat.succ)
          = (fun i => hazard ((b :: rest).getD i {}) ((b :: rest).getD (i + 1) {})) := by
        funext i
        simp
      rw [hfun]
      by_cases h : hazard a b = true
      · simp [h]; omega
      · simp [h]

/-- C19: on a non-empty program with registers in `[0,31]` and without branch-if-equal,
`run` terminates with `cycles = program_length + 4 + h`, where `h` is the number of indices
`i` such that instruction `i` is a load-word with destination `d ≠ 0` and instruction
`i + 1` reads `d`, and with `retired` the number of program instructions that are not
no-ops; on the empty program `cycles = 0` and `retired = 0`. -/
theorem exact_counts_straight_line (prog : List Instr) (cfg : SimConfig)
    (_ : regsInRange prog) (hnb : noBranch prog) (fuel : Nat)
    (hfuel : prog.length + 4 + loadUsePairs prog ≤ fuel) :
    (prog ≠ [] →
      (run prog cfg fuel).result
        = some { cycles := prog.length + 4 + loadUsePairs prog, retired := nonNops prog }) ∧
    (prog = [] → (run prog cfg fuel).result = some { cycles := 0, retired := 0 }) := by
  rw [← hazardCount_eq_loadUsePairs] at hfuel ⊢
  constructor
  · intro hne
    exact run_noBranch prog cfg hnb hne fuel hfuel
  · intro he
    subst he
    exact run_nil cfg fuel

/-- C19 at `progChain`: six instructions, none a no-op, one load-use pair: 11 cycles and
6 retired. -/
theorem exact_counts_straight_line_witness :
    regsInRange progChain ∧ noBranch progChain ∧ loadUsePairs progChain = 1 ∧
    progChain ≠ [] ∧
    (run progChain {} 11).result = some { cycles := 11, retired := 6 } :=
  ⟨by decide, by decide, by decide, by decide,
    (exact_counts_straight_line progChain {} (by decide) (by decide) 11 (by decide)).1
      (by decide)⟩

/-! ## Stall against branch redirect -/

/-- C20: no cycle both raises the stall flag and resolves a branch as taken (the first
needs a load-word in after-decode, the second a branch-if-equal); so in a stalling cycle
the Fetch step takes its stall arm and keeps the program counter and the after-fetch
latch. -/
theorem stall_excludes_branch_taken (prog : List Instr) :
    (∀ s : State, ¬ (stall s = true ∧ branch_taken s = true)) ∧
    (∀ s : State, stall s = true → nextPC s = s.PC ∧ ifLatch prog s = s.ifid) := by
  have key : ∀ s : State, stall s = true → branch_taken s = false := by
    intro s hst
    have hop : s.idex.instr.op = Op.LW := by
      by_contra hne
      have : stall s = false := by
        rw [stall_eq_hazard]; simp [hazard, hne]
      rw [this] at hst
      cases hst
    simp [branch_taken, hop]
  constructor
  · rintro s ⟨h1, h2⟩
    rw [key s h1] at h2
    cases h2
  · intro s hst
    simp [nextPC, ifLatch, key s hst, hst]

/-! ## Restricted architectural equivalence -/

lemma specStep_R (i : Instr) (idx : Int) (a : ArchState) (r : Int) :
    (specStep i idx a).2.R r =
      if i.writesReg = true ∧ i.destReg = r ∧ r ≠ 0 then specValue i a else a.R r := by
  unfold specStep specValue Instr.writesReg Instr.destReg
  cases hop : i.op <;> simp [specWrite] <;> split_ifs <;> simp_all [setReg] <;>
    (intro h; subst h; simp_all)

lemma specStep_memory (i : Instr) (idx : Int) (a : ArchState) :
    (specStep i idx a).2.memory =
      if i.op = Op.SW
      then setMem a.memory (wrap32 (a.R i.rs + sign_extend16 i.imm)) (a.R i.rt)
      else a.memory := by
  unfold specStep
  cases hop : i.op <;> simp

lemma specStep_next (i : Instr) (idx : Int) (a : ArchState) (h : i.op ≠ Op.BEQ) :
    (specStep i idx a).1 = idx + 1 := by
  unfold specStep
  cases hop : i.op <;> simp_all

lemma seqAt_succ_R (prog : List Instr) (a0 : ArchState) (k : Nat) (r : Int) :
    (seqAt prog a0 (k + 1)).R r =
      if (prog.getD k {}).writesReg = true ∧ (prog.getD k {}).destReg = r ∧ r ≠ 0
      then specValue (prog.getD k {}) (seqAt prog a0 k)
      else (seqAt prog a0 k).R r :=
  specStep_R _ _ _ _

lemma seqAt_succ_memory (prog : List Instr) (a0 : ArchState) (k : Nat) :
    (seqAt prog a0 (k + 1)).memory =
      if (prog.getD k {}).op = Op.SW
      then setMem (seqAt prog a0 k).memory
        (wrap32 ((seqAt prog a0 k).R (prog.getD k {}).rs + sign_extend16 (prog.getD k {}).imm))
        ((seqAt prog a0 k).R (prog.getD k {}).rt)
      else (seqAt prog a0 k).memory :=
  specStep_memory _ _ _

lemma seqAt_R_zero (prog : List Instr) (a0 : ArchState) (h0 : a0.R 0 = 0) :
    ∀ k : Nat, (seqAt prog a0 k).R 0 = 0 := by
  intro k
  induction k with
  | zero => exact h0
  | succ k ih => rw [seqAt_succ_R, if_neg (fun h => h.2.2 rfl)]; exact ih

lemma forward_layer (c : Bool) (d r : Int) (u : Bool) (a b : Int) :
    (if c = true then (if d ≠ 0 then (if (u && decide (d = r)) = true then a else b) else b)
      else b)
      = if c = true ∧ d ≠ 0 ∧ u = true ∧ d = r then a else b := by
  cases c <;> cases u <;> by_cases hd : d = 0 <;> by_cases hr : d = r <;> simp [hd, hr]

lemma operandA_eq_forwardOf (s : State) :
    operandA s = forwardOf s s.idex.instr.usesRS s.idex.instr.rs s.idex.rsVal := by
  simp only [operandA, forward_layer]
  unfold forwardOf
  congr 1
  · simp only [Bool.and_eq_true, and_assoc]
  · congr 1
    simp only [Bool.and_eq_true, and_assoc, bne_iff_ne, ne_eq]

lemma operandB_eq_forwardOf (s : State) :
    operandB s = forwardOf s s.idex.instr.usesRT s.idex.instr.rt s.idex.rtVal := by
  simp only [operandB, forward_layer]
  unfold forwardOf
  congr 1
  · simp only [Bool.and_eq_true, and_assoc]
  · congr 1
    simp only [Bool.and_eq_true, and_assoc, bne_iff_ne, ne_eq]

lemma writesReg_of_nop (i : Instr) (h : i.op = Op.NOP) : i.writesReg = false := by
  simp [Instr.writesReg, h]

lemma aluOf_eq_specValue (i : Instr) (a : ArchState) (hw : i.writesReg = true)
    (hl : i.op ≠ Op.LW) : aluOf i (a.R i.rs) (a.R i.rt) = specValue i a := by
  unfold aluOf specValue
  unfold Instr.writesReg at hw
  cases hop : i.op <;> simp_all

/-- The forwarding chain delivers the register value of the one-at-a-time execution, when
the latches behind after-decode hold what the invariant says, the instruction in
after-execute is not a load of the register, and the instructions in after-execute and
after-memory do not both write it. -/
lemma forwardOf_resolves (prog : List Instr) (a0 : ArchState) (t : State) (w m x : Nat)
    (r v0 : Int)
    (hv0 : v0 = (seqAt prog a0 w).R r)
    (hmw : m = w ∨ m = w + 1) (hxm : x = m ∨ x = m + 1)
    (hwb1 : m = w + 1 → memwbOK prog a0 t w)
    (hwb0 : m = w → idle t.memwb.valid t.memwb.instr)
    (hex1 : x = m + 1 → exmemOK prog a0 t m)
    (hex0 : x = m → idle t.exmem.valid t.exmem.instr)
    (hload : x = m + 1 → ¬ ((prog.getD m {}).op = Op.LW ∧ (prog.getD m {}).destReg ≠ 0 ∧
      (prog.getD m {}).destReg = r))
    (hadj : m = w + 1 → x = m + 1 →
      ¬ ((prog.getD w {}).writesReg = true ∧ (prog.getD m {}).writesReg = true ∧
        (prog.getD w {}).destReg = (prog.getD m {}).destReg ∧ (prog.getD w {}).destReg ≠ 0)) :
    forwardOf t true r v0 = (seqAt prog a0 x).R r := by
  -- the after-memory stage
  have hM : (if t.memwb.valid = true ∧ t.memwb.instr.writesReg = true ∧
        t.memwb.instr.destReg ≠ 0 ∧ true = true ∧ t.memwb.instr.destReg = r
      then get_wb_value t.memwb else v0) = (seqAt prog a0 m).R r := by
    rcases hmw with h | h
    · have hid := hwb0 h
      have : ¬ (t.memwb.valid = true ∧ t.memwb.instr.writesReg = true ∧
          t.memwb.instr.destReg ≠ 0 ∧ true = true ∧ t.memwb.instr.destReg = r) := by
        rintro ⟨hv, hwr, _⟩
        rw [writesReg_of_nop _ (hid hv)] at hwr
        cases hwr
      rw [if_neg this, h, hv0]
    · obtain ⟨hv, hin, hval⟩ := hwb1 h
      rw [h, seqAt_succ_R]
      generalize prog.getD w {} = iw at hin hval
      by_cases hc : iw.writesReg = true ∧ iw.destReg = r ∧ r ≠ 0
      · have hc2 : t.memwb.valid = true ∧ t.memwb.instr.writesReg = true ∧
            t.memwb.instr.destReg ≠ 0 ∧ true = true ∧ t.memwb.instr.destReg = r := by
          rw [hin]
          exact ⟨hv, hc.1, by rw [hc.2.1]; exact hc.2.2, rfl, hc.2.1⟩
        rw [if_pos hc2, if_pos hc, ← hval hc.1]
        simp [get_wb_value, hv, hin]
      · have hc2 : ¬ (t.memwb.valid = true ∧ t.memwb.instr.writesReg = true ∧
            t.memwb.instr.destReg ≠ 0 ∧ true = true ∧ t.memwb.instr.destReg = r) := by
          rw [hin]
          rintro ⟨_, h1, h2, _, h3⟩
          exact hc ⟨h1, h3, by rw [← h3]; exact h2⟩
        rw [if_neg hc2, if_neg hc, hv0]
  unfold forwardOf
  rcases hxm with h | h
  · -- after-execute idle
    have hid := hex0 h
    have hE : ¬ (t.exmem.valid = true ∧ t.exmem.instr.writesReg = true ∧
        t.exmem.instr.op ≠ Op.LW ∧ t.exmem.instr.destReg ≠ 0 ∧ true = true ∧
        t.exmem.instr.destReg = r) := by
      rintro ⟨hv, hwr, _⟩
      rw [writesReg_of_nop _ (hid hv)] at hwr
      cases hwr
    rw [if_neg hE, hM, h]
  · obtain ⟨hv, hin, halu, _⟩ := hex1 h
    have hl := hload h
    have ha := hadj
    rw [h, seqAt_succ_R]
    generalize prog.getD m {} = im at hin halu hl ha
    by_cases hc : im.writesReg = true ∧ im.destReg = r ∧ r ≠ 0
    · have hnl : im.op ≠ Op.LW := by
        intro hop
        exact hl ⟨hop, by rw [hc.2.1]; exact hc.2.2, hc.2.1⟩
      have hE : t.exmem.valid = true ∧ t.exmem.instr.writesReg = true ∧
          t.exmem.instr.op ≠ Op.LW ∧ t.exmem.instr.destReg ≠ 0 ∧ true = true ∧
          t.exmem.instr.destReg = r := by
        rw [hin]
        exact ⟨hv, hc.1, hnl, by rw [hc.2.1]; exact hc.2.2, rfl, hc.2.1⟩
      have hMn : ¬ (t.memwb.valid = true ∧ t.memwb.instr.writesReg = true ∧
          t.memwb.instr.destReg ≠ 0 ∧ true = true ∧ t.memwb.instr.destReg = r) := by
        rintro ⟨hmv, hmwr, hmd, _, hmr⟩
        rcases hmw with h2 | h2
        · rw [writesReg_of_nop _ (hwb0 h2 hmv)] at hmwr
          cases hmwr
        · obtain ⟨_, hmin, _⟩ := hwb1 h2
          rw [hmin] at hmwr hmd hmr
          exact ha h2 h ⟨hmwr, hc.1, by rw [hmr, hc.2.1], hmd⟩
      rw [if_neg hMn, if_pos hE, if_pos hc, halu]
      exact aluOf_eq_specValue im _ hc.1 hnl
    · have hE : ¬ (t.exmem.valid = true ∧ t.exmem.instr.writesReg = true ∧
          t.exmem.instr.op ≠ Op.LW ∧ t.exmem.instr.destReg ≠ 0 ∧ true = true ∧
          t.exmem.instr.destReg = r) := by
        rw [hin]
        rintro ⟨_, h1, _, h2, _, h3⟩
        exact hc ⟨h1, h3, by rw [← h3]; exact h2⟩
      rw [if_neg hE, hM, if_neg hc]

lemma getD_mem_of_lt (prog : List Instr) (k : Nat) (h : k < prog.length) :
    prog.getD k {} ∈ prog := by
  rw [List.getD_eq_getElem _ _ h]
  exact List.getElem_mem _

lemma idle_not_writes (v : Bool) (i : Instr) (h : idle v i) :
    ¬ (v = true ∧ i.writesReg = true) := by
  rintro ⟨hv, hw⟩
  rw [writesReg_of_nop _ (h hv)] at hw
  cases hw

lemma cycle_R_eq_wbRegs (prog : List Instr) (s : State) : (cycle prog s).R = wbRegs s := by
  funext r
  show setReg (wbRegs s) 0 0 r = wbRegs s r
  by_cases hr : r = 0
  · subst hr
    rw [wbRegs_apply]
    simp [setReg]
  · simp [setReg, hr]

/-- Writeback keeps the register file in step with the one-at-a-time execution. -/
lemma ref_R (prog : List Instr) (a0 : ArchState) (h0 : a0.R 0 = 0) (s : State) (w m : Nat)
    (hmw : m = w ∨ m = w + 1) (hR : s.R = (seqAt prog a0 w).R)
    (hwb1 : m = w + 1 → memwbOK prog a0 s w)
    (hwb0 : m = w → idle s.memwb.valid s.memwb.instr) :
    (cycle prog s).R = (seqAt prog a0 m).R := by
  rw [cycle_R_eq_wbRegs]
  funext r
  rw [wbRegs_apply]
  by_cases hr : r = 0
  · rw [if_pos hr, hr, seqAt_R_zero prog a0 h0]
  · rw [if_neg hr]
    rcases hmw with h | h
    · have hn := idle_not_writes _ _ (hwb0 h)
      have e1 : ¬ (s.memwb.valid = true ∧ s.memwb.instr.writesReg = true ∧
          s.memwb.instr.destReg = r) := fun hc => hn ⟨hc.1, hc.2.1⟩
      rw [if_neg e1, hR, h]
    · obtain ⟨hv, hin, hval⟩ := hwb1 h
      rw [h, seqAt_succ_R, hin, hR]
      generalize prog.getD w {} = iw at hin hval
      by_cases hc : iw.writesReg = true ∧ iw.destReg = r
      · have e1 : s.memwb.valid = true ∧ iw.writesReg = true ∧ iw.destReg = r :=
          ⟨hv, hc.1, hc.2⟩
        have e2 : iw.writesReg = true ∧ iw.destReg = r ∧ r ≠ 0 := ⟨hc.1, hc.2, hr⟩
        rw [if_pos e1, if_pos e2]
        exact hval hc.1
      · have e1 : ¬ (s.memwb.valid = true ∧ iw.writesReg = true ∧ iw.destReg = r) :=
          fun hc2 => hc ⟨hc2.2.1, hc2.2.2⟩
        have e2 : ¬ (iw.writesReg = true ∧ iw.destReg = r ∧ r ≠ 0) :=
          fun hc2 => hc ⟨hc2.1, hc2.2.1⟩
        rw [if_neg e1, if_neg e2]

lemma aluOf_SW (i : Instr) (A B : Int) (h : i.op = Op.SW) :
    aluOf i A B = wrap32 (A + sign_extend16 i.imm) := by
  simp [aluOf, h]

lemma aluOf_LW (i : Instr) (A B : Int) (h : i.op = Op.LW) :
    aluOf i A B = wrap32 (A + sign_extend16 i.imm) := by
  simp [aluOf, h]

/-- The Memory step keeps the memory in step with the one-at-a-time execution. -/
lemma ref_memory (prog : List Instr) (a0 : ArchState) (s : State) (m x : Nat)
    (hxm : x = m ∨ x = m + 1) (hM : s.memory = (seqAt prog a0 m).memory)
    (hex1 : x = m + 1 → exmemOK prog a0 s m)
    (hex0 : x = m → idle s.exmem.valid s.exmem.instr) :
    (cycle prog s).memory = (seqAt prog a0 x).memory := by
  show memMemory s = _
  unfold memMemory
  rcases hxm with h | h
  · have hn : ¬ ((s.exmem.valid && s.exmem.instr.op == Op.SW) = true) := by
      intro hc
      simp only [Bool.and_eq_true, beq_iff_eq] at hc
      have := hex0 h hc.1
      rw [this] at hc
      exact absurd hc.2 (by decide)
    rw [if_neg hn, hM, h]
  · obtain ⟨hv, hin, halu, hfw⟩ := hex1 h
    rw [h, seqAt_succ_memory, hin, hM]
    generalize prog.getD m {} = im at hin halu hfw
    by_cases hc : im.op = Op.SW
    · rw [if_pos (by simp [hv, hc]), if_pos hc, halu, hfw hc, aluOf_SW _ _ _ hc]
    · rw [if_neg (by simp [hv, hc]), if_neg hc]

/-- The Memory step hands after-memory what the invariant asks. -/
lemma ref_memwb (prog : List Instr) (a0 : ArchState) (s : State) (m x : Nat)
    (hM : s.memory = (seqAt prog a0 m).memory)
    (hex1 : x = m + 1 → exmemOK prog a0 s m)
    (hex0 : x = m → idle s.exmem.valid s.exmem.instr) :
    (x = m + 1 → memwbOK prog a0 (cycle prog s) m) ∧
    (x = m → idle (cycle prog s).memwb.valid (cycle prog s).memwb.instr) := by
  constructor
  · intro h
    obtain ⟨hv, hin, halu, _⟩ := hex1 h
    have hml : (cycle prog s).memwb = memLatch s := rfl
    refine ⟨by rw [hml, memLatch_valid]; exact hv, by rw [hml, memLatch_instr s hv]; exact hin, ?_⟩
    intro hw
    rw [hml]
    generalize prog.getD m {} = im at hin halu hw
    by_cases hl : im.op = Op.LW
    · rw [if_pos hl]
      simp only [memLatch, hv, if_true, hin, hl, beq_self_eq_true]
      rw [halu, aluOf_LW _ _ _ hl, hM]
      simp [specValue, hl]
    · rw [if_neg hl]
      simp only [memLatch, hv, if_true]
      rw [halu]
      exact aluOf_eq_specValue im _ hw hl
  · intro h hv
    have hml : (cycle prog s).memwb = memLatch s := rfl
    rw [hml, memLatch_valid] at hv
    rw [hml, memLatch_instr s hv]
    exact hex0 h hv

lemma usesRT_of_SW (i : Instr) (h : i.op = Op.SW) : i.usesRT = true := by
  simp [Instr.usesRT, h]

lemma exLatch_aluOut (s : State) (hv : s.idex.valid = true) :
    (exLatch s).aluOut = aluOf s.idex.instr (operandA s) (operandB s) := by
  unfold exLatch aluOf
  simp only [hv, if_true]
  cases hop : s.idex.instr.op <;> simp

lemma exLatch_rtValFwd (s : State) (hv : s.idex.valid = true) (hop : s.idex.instr.op = Op.SW) :
    (exLatch s).rtValFwd = operandB s := by
  simp [exLatch, hv, hop]

lemma aluOf_congr (i : Instr) (A B A1 B1 : Int) (hA : i.usesRS = true → A = A1)
    (hB : i.usesRT = true → B = B1) : aluOf i A B = aluOf i A1 B1 := by
  unfold aluOf
  unfold Instr.usesRS at hA
  unfold Instr.usesRT at hB
  cases hop : i.op <;> simp_all

/-- The Execute step hands after-execute what the invariant asks. -/
lemma ref_exmem (prog : List Instr) (a0 : ArchState) (s : State) (x d : Nat)
    (hid1 : d = x + 1 → idexOK prog a0 s x)
    (hid0 : d = x → idle s.idex.valid s.idex.instr) :
    (d = x + 1 → exmemOK prog a0 (cycle prog s) x) ∧
    (d = x → idle (cycle prog s).exmem.valid (cycle prog s).exmem.instr) := by
  have hxl : (cycle prog s).exmem = exLatch s := rfl
  constructor
  · intro h
    obtain ⟨hv, hin, hA, hB⟩ := hid1 h
    refine ⟨by rw [hxl, exLatch_valid]; exact hv, by rw [hxl, exLatch_instr s hv]; exact hin,
      ?_, ?_⟩
    · rw [hxl, exLatch_aluOut s hv, hin]
      exact aluOf_congr _ _ _ _ _ hA hB
    · intro hop
      rw [hxl, exLatch_rtValFwd s hv (by rw [hin]; exact hop)]
      exact hB (usesRT_of_SW _ hop)
  · intro h hv
    rw [hxl, exLatch_valid] at hv
    rw [hxl, exLatch_instr s hv]
    exact hid0 h hv

lemma ifLatch_noStall (prog : List Instr) (s : State) (hbt : branch_taken s = false)
    (hst : stall s = false) :
    ifLatch prog s =
      if s.PC < (prog.length : Int) then { valid := true, instr := progAt prog s.PC }
      else { s.ifid with valid := false } := by
  simp [ifLatch, hbt, hst]

/-- The Fetch step of a cycle without stall or branch, when `d` instructions are past
after-fetch once the cycle's Decode has run. -/
lemma ref_fetch (prog : List Instr) (s : State) (d : Nat) (hbt : branch_taken s = false)
    (hst : stall s = false) (hd : d ≤ prog.length)
    (hpc : s.PC = (d : Int) ∨ (d = prog.length ∧ (prog.length : Int) ≤ s.PC)) :
    ((cycle prog s).ifid.valid = true →
      (cycle prog s).PC = ((d + 1 : Nat) : Int) ∧ d < prog.length ∧
        (cycle prog s).ifid.instr = prog.getD d {}) ∧
    ((cycle prog s).ifid.valid = false →
      (cycle prog s).PC = (d : Int) ∨
        (d = prog.length ∧ (prog.length : Int) ≤ (cycle prog s).PC)) := by
  have hPC : (cycle prog s).PC = s.PC + 1 := by simp [cycle, nextPC, hbt, hst]
  have hifl : (cycle prog s).ifid = ifLatch prog s := rfl
  rw [hifl, ifLatch_noStall prog s hbt hst, hPC]
  by_cases hlt : s.PC < (prog.length : Int)
  · rw [if_pos hlt]
    have hpd : s.PC = (d : Int) := by
      rcases hpc with h | h
      · exact h
      · omega
    constructor
    · intro _
      refine ⟨by rw [hpd]; push_cast; ring, by omega, ?_⟩
      show progAt prog s.PC = _
      rw [hpd, progAt_natCast]
    · intro hv
      cases hv
  · rw [if_neg hlt]
    constructor
    · intro hv
      cases hv
    · intro _
      right
      constructor <;> omega

lemma hazard_false_rs (a b : Instr) (h : hazard a b = false) (hu : b.usesRS = true) :
    ¬ (a.op = Op.LW ∧ a.destReg ≠ 0 ∧ a.destReg = b.rs) := by
  rintro ⟨h1, h2, h3⟩
  have : hazard a b = true := by
    simp [hazard, h1, h2, hu, h3.symm]
  rw [this] at h
  cases h

lemma hazard_false_rt (a b : Instr) (h : hazard a b = false) (hu : b.usesRT = true) :
    ¬ (a.op = Op.LW ∧ a.destReg ≠ 0 ∧ a.destReg = b.rt) := by
  rintro ⟨h1, h2, h3⟩
  have : hazard a b = true := by
    simp [hazard, h1, h2, hu, h3.symm]
  rw [this] at h
  cases h

lemma idLatch_noStall (s : State) (hst : stall s = false) (hf : s.ifid.valid = true) :
    idLatch s =
      { valid := true, instr := s.ifid.instr,
        rsVal := wbRegs s s.ifid.instr.rs, rtVal := wbRegs s s.ifid.instr.rt } := by
  simp [idLatch, hf, hst]

/-- One cycle of a branch-free program keeps the refinement invariant. -/
lemma ref_step (prog : List Instr) (a0 : ArchState) (hnb : noBranch prog)
    (hadj : noAdjacentSameDest prog) (h0 : a0.R 0 = 0) (s : State)
    (h : refInv prog a0 s) : refInv prog a0 (cycle prog s) := by
  obtain ⟨w, m, x, d, hmw, hxm, hdx, hdn, hR, hM, hwb1, hwb0, hex1, hex0, hid1, hid0,
    hif1, hif0⟩ := h
  have hR' := ref_R prog a0 h0 s w m hmw hR hwb1 hwb0
  have hM' := ref_memory prog a0 s m x hxm hM hex1 hex0
  obtain ⟨hwb1', hwb0'⟩ := ref_memwb prog a0 s m x hM hex1 hex0
  obtain ⟨hex1', hex0'⟩ := ref_exmem prog a0 s x d hid1 hid0
  have hnbq : s.idex.valid = true → s.idex.instr.op ≠ Op.BEQ := by
    intro hv
    rcases hdx with h | h
    · rw [hid0 h hv]
      decide
    · obtain ⟨_, hin, _, _⟩ := hid1 h
      rw [hin]
      exact hnb _ (getD_mem_of_lt prog x (by omega))
  have hbt : branch_taken s = false := by
    unfold branch_taken
    cases hv : s.idex.valid
    · simp
    · simp [hnbq hv]
  have hidl : (cycle prog s).idex = idLatch s := rfl
  cases hst : stall s
  · cases hf : s.ifid.valid
    · -- no stall, nothing in after-fetch
      obtain ⟨hf1, hf0⟩ := ref_fetch prog s d hbt hst hdn (hif0 hf)
      refine ⟨m, x, d, d, hxm, hdx, Or.inl rfl, hdn, hR', hM', hwb1', hwb0', hex1', hex0',
        ?_, ?_, hf1, hf0⟩
      · intro hc
        omega
      · intro _ hv
        rw [hidl, idLatch_valid_noStall s hst, hf] at hv
        cases hv
    · -- no stall, after-fetch is decoded
      obtain ⟨hpc, hdlt, hfi⟩ := hif1 hf
      obtain ⟨hf1, hf0⟩ := ref_fetch prog s (d + 1) hbt hst (by omega) (Or.inl hpc)
      have hid' : (cycle prog s).idex =
          { valid := true, instr := prog.getD d {},
            rsVal := wbRegs s (prog.getD d {}).rs, rtVal := wbRegs s (prog.getD d {}).rt } := by
        rw [hidl, idLatch_noStall s hst hf, hfi]
      have hld : d = x + 1 → hazard (prog.getD x {}) (prog.getD d {}) = false := by
        intro hd
        obtain ⟨hv, hin, _, _⟩ := hid1 hd
        have hs := hst
        rw [stall_eq_hazard, hf, hv, hin, hfi] at hs
        simpa using hs
      have hadj' : x = m + 1 → d = x + 1 →
          ¬ ((prog.getD m {}).writesReg = true ∧ (prog.getD x {}).writesReg = true ∧
            (prog.getD m {}).destReg = (prog.getD x {}).destReg ∧
            (prog.getD m {}).destReg ≠ 0) := by
        intro hx hd
        have := hadj m (by omega)
        rw [hx]
        exact this
      refine ⟨m, x, d, d + 1, hxm, hdx, Or.inr rfl, by omega, hR', hM', hwb1', hwb0',
        hex1', hex0', ?_, ?_, hf1, hf0⟩
      · intro _
        refine ⟨by rw [hid'], by rw [hid'], ?_, ?_⟩
        · intro hu
          rw [operandA_eq_forwardOf, hid']
          simp only [hu]
          refine forwardOf_resolves prog a0 (cycle prog s) m x d _ _ ?_ hxm hdx hwb1' hwb0'
            hex1' hex0' ?_ hadj'
          · rw [← hR', cycle_R_eq_wbRegs]
          · intro hd
            exact hazard_false_rs _ _ (hld hd) hu
        · intro hu
          rw [operandB_eq_forwardOf, hid']
          simp only [hu]
          refine forwardOf_resolves prog a0 (cycle prog s) m x d _ _ ?_ hxm hdx hwb1' hwb0'
            hex1' hex0' ?_ hadj'
          · rw [← hR', cycle_R_eq_wbRegs]
          · intro hd
            exact hazard_false_rt _ _ (hld hd) hu
      · intro hc
        omega
  · -- stall: the front end holds, a bubble enters after-decode
    have hPC : (cycle prog s).PC = s.PC := by simp [cycle, nextPC, hbt, hst]
    have hif : (cycle prog s).ifid = s.ifid := by simp [cycle, ifLatch, hbt, hst]
    refine ⟨m, x, d, d, hxm, hdx, Or.inl rfl, hdn, hR', hM', hwb1', hwb0', hex1', hex0',
      ?_, ?_, ?_, ?_⟩
    · intro hc
      omega
    · intro _ _
      rw [hidl, idLatch_stall s hst]
      rfl
    · rw [hPC, hif]
      exact hif1
    · rw [hPC, hif]
      exact hif0

lemma refInv_init (prog : List Instr) (cfg : SimConfig) :
    refInv prog (initArch cfg) (initState cfg) := by
  refine ⟨0, 0, 0, 0, Or.inl rfl, Or.inl rfl, Or.inl rfl, Nat.zero_le _, rfl, rfl,
    ?_, ?_, ?_, ?_, ?_, ?_, ?_, ?_⟩
  · intro h; omega
  · intro _ hv; simp [initState] at hv
  · intro h; omega
  · intro _ hv; simp [initState] at hv
  · intro h; omega
  · intro _ hv; simp [initState] at hv
  · intro hv; simp [initState] at hv
  · intro _; left; simp [initState]

/-- When the pipeline is empty every instruction has passed Writeback. -/
lemma ref_done (prog : List Instr) (a0 : ArchState) (s : State) (h : refInv prog a0 s)
    (he : pipeline_empty prog s = true) :
    s.R = (seqAt prog a0 prog.length).R ∧ s.memory = (seqAt prog a0 prog.length).memory := by
  obtain ⟨w, m, x, d, hmw, hxm, hdx, hdn, hR, hM, hwb1, _, hex1, _, hid1, _, _, hif0⟩ := h
  simp only [pipeline_empty, Bool.and_eq_true, Bool.not_eq_true', decide_eq_true_eq] at he
  obtain ⟨⟨⟨⟨hpc, hf⟩, hi⟩, hx⟩, hw⟩ := he
  have hdx' : d = x := by
    rcases hdx with h | h
    · exact h
    · have := (hid1 h).1
      rw [hi] at this
      cases this
  have hxm' : x = m := by
    rcases hxm with h | h
    · exact h
    · have := (hex1 h).1
      rw [hx] at this
      cases this
  have hmw' : m = w := by
    rcases hmw with h | h
    · exact h
    · have := (hwb1 h).1
      rw [hw] at this
      cases this
  have hd : d = prog.length := by
    rcases hif0 hf with h | h
    · omega
    · exact h.1
  have hwn : w = prog.length := by omega
  have hmn : m = prog.length := by omega
  rw [hR, hM, hwn, hmn]
  exact ⟨rfl, rfl⟩

/-- A branch-free run without adjacent writers of one register ends in the architectural
state of the one-at-a-time execution. -/
lemma runLoop_ref (prog : List Instr) (a0 : ArchState) (hnb : noBranch prog)
    (hadj : noAdjacentSameDest prog) (h0 : a0.R 0 = 0) :
    ∀ (fuel : Nat) (s : State) (res : SimResult) (tr : List TraceRow),
      flowInv s → refInv prog a0 s → remaining prog s ≤ fuel →
      ∃ f : State, (runLoop prog fuel s res tr).final = some f ∧
        f.R = (seqAt prog a0 prog.length).R ∧
        f.memory = (seqAt prog a0 prog.length).memory := by
  intro fuel
  induction fuel with
  | zero =>
      intro s res tr hinv href hle
      cases he : pipeline_empty prog s
      · have := (flow_step prog hnb s hinv he).2.2.1
        omega
      · refine ⟨s, ?_, ref_done prog a0 s href he⟩
        simp [runLoop, he, Outcome.final]
  | succ fuel ih =>
      intro s res tr hinv href hle
      cases he : pipeline_empty prog s
      · obtain ⟨hinv1, hff, hrem, _⟩ := flow_step prog hnb s hinv he
        have hle1 : remaining prog (cycle prog s) ≤ fuel := by omega
        simp only [runLoop, he, hff, Bool.false_eq_true, if_false]
        exact ih (cycle prog s) _ _ hinv1 (ref_step prog a0 hnb hadj h0 s href) hle1
      · refine ⟨s, ?_, ref_done prog a0 s href he⟩
        simp [runLoop, he, Outcome.final]

/-- On a branch-free program the reference run passes through the states `seqAt`. -/
lemma specRun_seqAt (prog : List Instr) (a0 : ArchState) (hnb : noBranch prog) :
    ∀ (fuel k : Nat), k ≤ prog.length → prog.length - k ≤ fuel →
      specRun prog fuel (k : Int) (seqAt prog a0 k) = some (seqAt prog a0 prog.length) := by
  intro fuel
  induction fuel with
  | zero =>
      intro k hk hle
      have hkn : k = prog.length := by omega
      have hc : ¬ ((0 : Int) ≤ (k : Int) ∧ (k : Int) < (prog.length : Int)) := by omega
      simp only [specRun, hc, if_false]
      rw [hkn]
  | succ fuel ih =>
      intro k hk hle
      by_cases hlt : k < prog.length
      · have hc : (0 : Int) ≤ (k : Int) ∧ (k : Int) < (prog.length : Int) := by omega
        simp only [specRun, hc, and_self, if_true]
        rw [progAt_natCast, specStep_next _ _ _ (hnb _ (getD_mem_of_lt prog k hlt))]
        have := ih (k + 1) (by omega) (by omega)
        rw [Nat.cast_succ] at this
        exact this
      · have hkn : k = prog.length := by omega
        have hc : ¬ ((0 : Int) ≤ (k : Int) ∧ (k : Int) < (prog.length : Int)) := by omega
        simp only [specRun, hc, if_false]
        rw [hkn]

lemma remaining_init_le (prog : List Instr) (cfg : SimConfig) :
    remaining prog (initState cfg) ≤ prog.length + 4 + hazardCount prog := by
  by_cases hne : prog = []
  · subst hne
    simp [remaining, initState]
  · rw [remaining_init prog cfg hne]

/-- C18: for every program with registers in `[0,31]`, without branch-if-equal and in which
no two adjacent instructions write the same non-zero destination register, `run`
terminates and its final register file and final memory are those of executing the
instructions one at a time in program order from the same initial state. -/
theorem restricted_equivalence (prog : List Instr) (cfg : SimConfig)
    (_ : regsInRange prog) (hnb : noBranch prog) (hadj : noAdjacentSameDest prog)
    (fuel : Nat) (hfuel : prog.length + 4 + loadUsePairs prog ≤ fuel) :
    ∃ (final : State) (a : ArchState),
      (run prog cfg fuel).final = some final ∧
      specRun prog prog.length 0 (initArch cfg) = some a ∧
      final.R = a.R ∧ final.memory = a.memory := by
  rw [← hazardCount_eq_loadUsePairs] at hfuel
  have h0 : (initArch cfg).R 0 = 0 := rfl
  obtain ⟨f, hf, hR, hM⟩ := runLoop_ref prog (initArch cfg) hnb hadj h0 fuel (initState cfg)
    {} [] (flowInv_init cfg) (refInv_init prog cfg)
    (le_trans (remaining_init_le prog cfg) hfuel)
  have hs := specRun_seqAt prog (initArch cfg) hnb prog.length 0 (Nat.zero_le _) (by omega)
  exact ⟨f, _, hf, hs, hR, hM⟩

/-- C18 at the end-to-end example `lw r2,0(r0); add r3,r2,r2; sw r3,4(r0)`. -/
theorem restricted_equivalence_witness :
    regsInRange progLoadUse ∧ noBranch progLoadUse ∧ noAdjacentSameDest progLoadUse ∧
    ∃ (final : State) (a : ArchState),
      (run progLoadUse {} 8).final = some final ∧
      specRun progLoadUse progLoadUse.length 0 (initArch {}) = some a ∧
      final.R = a.R ∧ final.memory = a.memory :=
  ⟨by decide, by decide, by decide,
    restricted_equivalence progLoadUse {} (by decide) (by decide) (by decide) 8 (by decide)⟩

end PipelineSim
